import Mathlib

/-!
# Verification of the TechSupport-AI agent core

Shallow embedding of the repository's AI agent engine:
guardrails (`src/lib/ai/guardrails.ts`), playbook engine
(`src/lib/playbooks/engine.ts`), knowledge-base chunker, retrieval and
embeddings (`src/lib/knowledge-base/*.ts`), and the tier-1 agent's
escalation short-circuit (`src/lib/ai/l1-agent.ts`).

Strings are modelled as `List Char` (`Str`).  JavaScript's `toLowerCase`
is modelled by `Char.toLower`, which agrees with it on ASCII — all string
constants in the modelled code are ASCII.  JavaScript numbers are
modelled by `Nat` where the code only ever holds non-negative integers
(lengths, counts, token estimates) and by `ℚ` for similarity scores;
floating-point rounding is not modelled.
-/

set_option maxRecDepth 10000

abbrev Str := List Char

/-- Characters treated as whitespace by JavaScript's `trim`, `\s`. (ASCII range.) -/
def isJsWs (c : Char) : Bool :=
  c = ' ' || c = '\t' || c = '\n' || c = '\r' || c = '\x0b' || c = '\x0c'

/-- JavaScript `String.prototype.trim` (ASCII whitespace). -/
def jsTrim (s : Str) : Str :=
  ((s.dropWhile isJsWs).reverse.dropWhile isJsWs).reverse

/-- Token estimate used throughout the repository: `Math.ceil(text.length / 4)`. -/
def estimateTokens (s : Str) : Nat :=
  (s.length + 3) / 4

/-- Lowercase a string (models JS `toLowerCase` on ASCII input). -/
def lowerStr (s : Str) : Str := s.map Char.toLower

/-- `needle.isPrefixOf hay`-based substring test: JS `haystack.includes(needle)`. -/
def strIncludes : Str → Str → Bool
  | hay, needle =>
    if needle.isPrefixOf hay then true
    else match hay with
         | [] => false
         | _ :: rest => strIncludes rest needle

section PlaybookEngine

/-!
## Playbook engine — `src/lib/playbooks/engine.ts`

`PlaybookStep`, `Playbook`, `PlaybookExecutionState`,
`PlaybookExecutionResult` are from `src/lib/playbooks/types.ts`.
`Date` fields (`startedAt`, `lastUpdatedAt`) and fields not read by
`executeStep`/`getCurrentStep` (`requiresConfirmation`, `timeout`,
triggers, escalation config, most metadata) are omitted: wall-clock
time is outside the model and the omitted fields do not flow into the
operations the claims are about.  The TS code mutates `state` in place;
the model returns the updated state alongside the result.
-/

structure PlaybookStep where
  id : Str
  title : Str
  instruction : Str
  expectedOutcome : Option Str
  failureHint : Option Str
  nextOnSuccess : Option Str
  nextOnFailure : Option Str
  escalateOnFailure : Option Bool
  maxAttempts : Option Nat
  deriving DecidableEq, Repr

structure PlaybookMetadata where
  id : Str
  name : Str
  deriving DecidableEq, Repr

structure Playbook where
  metadata : PlaybookMetadata
  steps : List PlaybookStep
  -- source field name: `variables` (a reserved word in Lean)
  vars : Option (List (Str × Str))
  deriving DecidableEq, Repr

inductive PlaybookOutcome where
  | in_progress
  | resolved
  | escalated
  deriving DecidableEq, Repr

structure PlaybookExecutionState where
  playbookId : Str
  currentStepId : Str
  stepAttempts : List (Str × Nat)
  completedSteps : List Str
  failedSteps : List Str
  -- source field name: `variables`
  vars : List (Str × Str)
  outcome : PlaybookOutcome
  deriving DecidableEq, Repr

inductive StepOutcome where
  | success
  | failure
  deriving DecidableEq, Repr

structure PlaybookExecutionResult where
  success : Bool
  stepId : Str
  stepTitle : Str
  outcome : StepOutcome
  message : Str
  nextStepId : Option Str
  shouldEscalate : Bool
  escalationReason : Option Str
  deriving DecidableEq, Repr

/-- Association-list read of `state.stepAttempts[step.id] || 0`. -/
def attemptsLookup (m : List (Str × Nat)) (k : Str) : Nat :=
  match m.find? (fun p => p.1 = k) with
  | some p => p.2
  | none => 0

/-- Association-list write `state.stepAttempts[step.id] = attempts`. -/
def attemptsInsert (m : List (Str × Nat)) (k : Str) (v : Nat) : List (Str × Nat) :=
  match m with
  | [] => [(k, v)]
  | p :: rest => if p.1 = k then (k, v) :: rest else p :: attemptsInsert rest k v

/-- `createExecutionState` (engine.ts).  `Date` fields omitted. -/
def createExecutionState (playbook : Playbook) : PlaybookExecutionState :=
  { playbookId := playbook.metadata.id
    currentStepId := match playbook.steps.head? with
                     | some s => s.id
                     | none => []
    stepAttempts := []
    completedSteps := []
    failedSteps := []
    vars := playbook.vars.getD []
    outcome := PlaybookOutcome.in_progress }

/-- `getCurrentStep` (engine.ts): `playbook.steps.find((s) => s.id === state.currentStepId)`. -/
def getCurrentStep (playbook : Playbook) (state : PlaybookExecutionState) :
    Option PlaybookStep :=
  playbook.steps.find? (fun s => s.id = state.currentStepId)

/-- `executeStep` (engine.ts lines 212-291).  Returns the mutated state
together with the `PlaybookExecutionResult`.  Note the source computes the
effective max attempts as `step.maxAttempts || 3`, so an explicit `0` also
falls back to 3 (JS `||`, not `??`). -/
def executeStep (playbook : Playbook) (state : PlaybookExecutionState)
    (stepOutcome : StepOutcome) :
    PlaybookExecutionState × PlaybookExecutionResult :=
  match getCurrentStep playbook state with
  | none =>
    (state,
     { success := false
       stepId := state.currentStepId
       stepTitle := ("Unknown").toList
       outcome := StepOutcome.failure
       message := ("Step not found").toList
       nextStepId := none
       shouldEscalate := true
       escalationReason := some (("Playbook step not found").toList) })
  | some step =>
    let attempts := attemptsLookup state.stepAttempts step.id + 1
    let state := { state with stepAttempts := attemptsInsert state.stepAttempts step.id attempts }
    let maxAttempts := match step.maxAttempts with
                       | some m => if m = 0 then 3 else m
                       | none => 3
    if attempts > maxAttempts ∧ stepOutcome = StepOutcome.failure then
      let state := { state with failedSteps := state.failedSteps ++ [step.id] }
      (state,
       { success := false
         stepId := step.id
         stepTitle := step.title
         outcome := StepOutcome.failure
         message := ("Step failed after ").toList ++ (toString attempts).toList ++
           (" attempts: ").toList ++
           (step.failureHint.getD (("Unable to complete step").toList))
         nextStepId := none
         shouldEscalate := step.escalateOnFailure.getD true
         escalationReason := some (("Max attempts exceeded for step: ").toList ++ step.title) })
    else if stepOutcome = StepOutcome.success then
      let state := { state with completedSteps := state.completedSteps ++ [step.id] }
      let nextStepId := step.nextOnSuccess
      let state := match nextStepId with
                   | some nid => { state with currentStepId := nid }
                   | none => { state with outcome := PlaybookOutcome.resolved }
      (state,
       { success := true
         stepId := step.id
         stepTitle := step.title
         outcome := StepOutcome.success
         message := step.expectedOutcome.getD (("Step completed successfully").toList)
         nextStepId := nextStepId
         shouldEscalate := false
         escalationReason := none })
    else
      let nextOnFailure := step.nextOnFailure
      let state := match nextOnFailure with
                   | some nid => { state with currentStepId := nid }
                   | none => state
      (state,
       { success := false
         stepId := step.id
         stepTitle := step.title
         outcome := StepOutcome.failure
         message := step.failureHint.getD (("Step did not complete as expected").toList)
         nextStepId := nextOnFailure
         shouldEscalate := false
         escalationReason := none })

end PlaybookEngine

section RegexEngine

/-!
## Regular-expression engine

A small backtracking matcher used to embed the JavaScript regular
expressions of `guardrails.ts` and `chunker.ts` faithfully: alternation
tries the left branch first and repetition is greedy, matching the
backtracking priority order of JS regexes.  `wb` is `\b`, `bol`/`eol`
are multiline `^`/`$`.  Matching is fuelled; the fuel bounds the depth
of the backtracking search and is chosen large enough at every call
site (the patterns below consume at least one character per repetition
step, so depth is linear in the input).
-/

inductive RE where
  | cls (p : Char → Bool)
  | eps
  | seq (a b : RE)
  | alt (a b : RE)
  | rep (a : RE) (lo : Nat) (hi : Option Nat)
  | wb
  | bol
  | eol

/-- JS `\w` (word character): `[A-Za-z0-9_]`. -/
def isWordChar (c : Char) : Bool :=
  (('a' ≤ c ∧ c ≤ 'z') ∨ ('A' ≤ c ∧ c ≤ 'Z') ∨ ('0' ≤ c ∧ c ≤ '9') ∨ c = '_')

/-- Line terminators recognised by multiline `^`/`$` and excluded by `.` (ASCII). -/
def isLineTerm (c : Char) : Bool := c = '\n' || c = '\r'

/-- CPS backtracking matcher.  `prev` is the character just before the
current position (for `\b`, `^`); the continuation receives the updated
`prev` and the remaining input, and the first continuation success in
priority order is returned. -/
def reMatch : Nat → RE → Option Char → Str → (Option Char → Str → Option Str) → Option Str
  | 0, _, _, _, _ => none
  | _ + 1, RE.cls _, _, [], _ => none
  | _ + 1, RE.cls p, _, c :: rest, k => if p c then k (some c) rest else none
  | _ + 1, RE.eps, prev, rest, k => k prev rest
  | fuel + 1, RE.seq a b, prev, rest, k =>
    reMatch fuel a prev rest (fun p r => reMatch fuel b p r k)
  | fuel + 1, RE.alt a b, prev, rest, k =>
    match reMatch fuel a prev rest k with
    | some res => some res
    | none => reMatch fuel b prev rest k
  | fuel + 1, RE.rep a lo hi, prev, rest, k =>
    match lo with
    | m + 1 =>
      reMatch fuel a prev rest (fun p r => reMatch fuel (RE.rep a m (hi.map (· - 1))) p r k)
    | 0 =>
      match hi with
      | some 0 => k prev rest
      | _ =>
        match reMatch fuel a prev rest
            (fun p r => reMatch fuel (RE.rep a 0 (hi.map (· - 1))) p r k) with
        | some res => some res
        | none => k prev rest
  | _ + 1, RE.wb, prev, rest, k =>
    let before := match prev with
                  | some c => isWordChar c
                  | none => false
    let after := match rest with
                 | c :: _ => isWordChar c
                 | [] => false
    if before ≠ after then k prev rest else none
  | _ + 1, RE.bol, prev, rest, k =>
    match prev with
    | none => k prev rest
    | some c => if isLineTerm c then k prev rest else none
  | _ + 1, RE.eol, prev, rest, k =>
    match rest with
    | [] => k prev rest
    | c :: _ => if isLineTerm c then k prev rest else none

/-- Fuel bound for matching with the patterns in this file. -/
def reFuel (rest : Str) : Nat := 8 * rest.length + 256

/-- Leftmost match search: try to match at the current position, else
advance one character.  Returns `(index, length)` of the first (leftmost,
then greedy) match, like `RegExp.exec`. -/
def reFindAux (re : RE) (prev : Option Char) (rest : Str) (i : Nat) : Option (Nat × Nat) :=
  match reMatch (reFuel rest) re prev rest (fun _ r => some r) with
  | some r => some (i, rest.length - r.length)
  | none =>
    match rest with
    | [] => none
    | c :: rest' => reFindAux re (some c) rest' (i + 1)

/-- Leftmost match at or after position `start` in `s`. -/
def reFindFrom (re : RE) (s : Str) (start : Nat) : Option (Nat × Nat) :=
  if start = 0 then reFindAux re none s 0
  else reFindAux re (s.get? (start - 1)) (s.drop start) start

/-- All matches of a global regex, as `RegExp.exec` iterated with
`lastIndex` advanced to the end of each match (with a one-character
minimum advance as a termination guard; the embedded patterns never
match the empty string). -/
def reExecAllAux (re : RE) (s : Str) : Nat → Nat → List (Nat × Nat)
  | 0, _ => []
  | fuel + 1, start =>
    if start > s.length then []
    else
      match reFindFrom re s start with
      | none => []
      | some (i, len) => (i, len) :: reExecAllAux re s fuel (i + max len 1)

def reExecAll (re : RE) (s : Str) : List (Nat × Nat) :=
  reExecAllAux re s (s.length + 1) 0

/-- `RegExp.test` on a fresh regex (match anywhere in `s`). -/
def reTest (re : RE) (s : Str) : Bool :=
  (reFindAux re none s 0).isSome

/-- Concatenation of a list of regexes. -/
def reCat (l : List RE) : RE := l.foldr RE.seq RE.eps

/-- Alternation of a list of regexes, left branch first. -/
def reAlts : List RE → RE
  | [] => RE.cls (fun _ => false)
  | [r] => r
  | r :: rest => RE.alt r (reAlts rest)

/-- Single literal character. -/
def chr (d : Char) : RE := RE.cls (fun c => c = d)

/-- Case-insensitive literal character (the `i` flag). -/
def ciChar (d : Char) : RE := RE.cls (fun c => c.toLower = d.toLower)

/-- Case-sensitive literal string. -/
def reStr (d : String) : RE := reCat (d.toList.map chr)

/-- Case-insensitive literal string. -/
def reStrCI (d : String) : RE := reCat (d.toList.map ciChar)

/-- `X?` (greedy). -/
def reOpt (a : RE) : RE := RE.rep a 0 (some 1)

/-- `X+` (greedy). -/
def rePlus (a : RE) : RE := RE.rep a 1 none

end RegexEngine

section Guardrails

/-!
## Guardrail engine — `src/lib/ai/guardrails.ts`

`SENSITIVE_PATTERNS`, `redactSecrets`, `ESCALATION_KEYWORDS`,
`checkEscalationTriggers` transcribed from the source.  Patterns carry
the `g` flag; all but the credit-card and SSN patterns also carry `i`
(case-insensitive), which the transcription bakes into the character
classes.
-/

def isAsciiDigit (c : Char) : Bool := '0' ≤ c ∧ c ≤ '9'

def isAsciiAlpha (c : Char) : Bool := ('a' ≤ c ∧ c ≤ 'z') ∨ ('A' ≤ c ∧ c ≤ 'Z')

def isAlnum (c : Char) : Bool := isAsciiAlpha c || isAsciiDigit c

/-- `[=:\s]` -/
def clsEqColonWs : RE := RE.cls (fun c => c = '=' || c = ':' || isJsWs c)

/-- `[:\s]` -/
def clsColonWs : RE := RE.cls (fun c => c = ':' || isJsWs c)

/-- `['"]` -/
def clsQuote : RE := RE.cls (fun c => c = '\'' || c = '"')

/-- `[a-zA-Z0-9_\-]` -/
def clsKeyChar : RE := RE.cls (fun c => isAlnum c || c = '_' || c = '-')

/-- `[a-zA-Z0-9_\-\.]` -/
def clsTokenChar : RE := RE.cls (fun c => isAlnum c || c = '_' || c = '-' || c = '.')

/-- `[a-zA-Z0-9]` (also `[A-Z0-9]` under the `i` flag) -/
def clsAlnum : RE := RE.cls isAlnum

/-- `[_-]` -/
def clsUDash : RE := RE.cls (fun c => c = '_' || c = '-')

/-- `[^\s'"]` -/
def clsNonWsQuote : RE := RE.cls (fun c => !(isJsWs c || c = '\'' || c = '"'))

/-- `[^\s]` -/
def clsNonWs : RE := RE.cls (fun c => !isJsWs c)

/-- `[a-zA-Z0-9\/+=]` -/
def clsAwsSecretChar : RE := RE.cls (fun c => isAlnum c || c = '/' || c = '+' || c = '=')

/-- `[0-9]`, `\d` -/
def clsDigit : RE := RE.cls isAsciiDigit

/-- `[a-zA-Z]` -/
def clsAlpha : RE := RE.cls isAsciiAlpha

/-- `[a-zA-Z0-9._%+-]` -/
def clsEmailLocal : RE := RE.cls (fun c => isAlnum c || c = '.' || c = '_' || c = '%' || c = '+' || c = '-')

/-- `[a-zA-Z0-9.-]` -/
def clsEmailDomain : RE := RE.cls (fun c => isAlnum c || c = '.' || c = '-')

/-- `/(?:api[_-]?key|apikey)[=:\s]+['"]?([a-zA-Z0-9_\-]{20,})['"]?/gi` -/
def reApiKey : RE := reCat
  [RE.alt (reCat [reStrCI ("api"), reOpt clsUDash, reStrCI ("key")]) (reStrCI ("apikey")),
   rePlus clsEqColonWs, reOpt clsQuote, RE.rep clsKeyChar 20 none, reOpt clsQuote]

/-- `/(?:bearer|token)[:\s]+['"]?([a-zA-Z0-9_\-\.]{20,})['"]?/gi` -/
def reBearer : RE := reCat
  [RE.alt (reStrCI ("bearer")) (reStrCI ("token")),
   rePlus clsColonWs, reOpt clsQuote, RE.rep clsTokenChar 20 none, reOpt clsQuote]

/-- `/sk-[a-zA-Z0-9]{32,}/gi` -/
def reOpenAIKey : RE := reCat [reStrCI ("sk-"), RE.rep clsAlnum 32 none]

/-- `/ghp_[a-zA-Z0-9]{36}/gi` -/
def reGithubToken : RE := reCat [reStrCI ("ghp_"), RE.rep clsAlnum 36 (some 36)]

/-- `/gho_[a-zA-Z0-9]{36}/gi` -/
def reGithubOAuth : RE := reCat [reStrCI ("gho_"), RE.rep clsAlnum 36 (some 36)]

/-- `/xox[baprs]-[a-zA-Z0-9\-]+/gi` -/
def reSlackToken : RE := reCat
  [reStrCI ("xox"), RE.cls (fun c => c.toLower = 'b' || c.toLower = 'a' || c.toLower = 'p' ||
    c.toLower = 'r' || c.toLower = 's'), chr '-', rePlus clsKeyChar]

/-- `/AKIA[A-Z0-9]{16}/gi` -/
def reAwsAccessKey : RE := reCat [reStrCI ("AKIA"), RE.rep clsAlnum 16 (some 16)]

/-- `/(?:aws[_-]?secret|secret[_-]?key)[=:\s]+['"]?([a-zA-Z0-9\/+=]{40})['"]?/gi` -/
def reAwsSecret : RE := reCat
  [RE.alt (reCat [reStrCI ("aws"), reOpt clsUDash, reStrCI ("secret")])
          (reCat [reStrCI ("secret"), reOpt clsUDash, reStrCI ("key")]),
   rePlus clsEqColonWs, reOpt clsQuote, RE.rep clsAwsSecretChar 40 (some 40), reOpt clsQuote]

/-- `/(?:password|passwd|pwd)[=:\s]+['"]?([^\s'"]{8,})['"]?/gi` -/
def rePassword : RE := reCat
  [reAlts [reStrCI ("password"), reStrCI ("passwd"), reStrCI ("pwd")],
   rePlus clsEqColonWs, reOpt clsQuote, RE.rep clsNonWsQuote 8 none, reOpt clsQuote]

/-- `/(?:secret|credential)[=:\s]+['"]?([^\s'"]{8,})['"]?/gi` -/
def reSecret : RE := reCat
  [RE.alt (reStrCI ("secret")) (reStrCI ("credential")),
   rePlus clsEqColonWs, reOpt clsQuote, RE.rep clsNonWsQuote 8 none, reOpt clsQuote]

/-- `/\b(?:4[0-9]{12}(?:[0-9]{3})?|5[1-5][0-9]{14}|3[47][0-9]{13}|6(?:011|5[0-9]{2})[0-9]{12})\b/g` -/
def reCreditCard : RE := reCat
  [RE.wb,
   reAlts
     [reCat [chr '4', RE.rep clsDigit 12 (some 12), reOpt (RE.rep clsDigit 3 (some 3))],
      reCat [chr '5', RE.cls (fun c => '1' ≤ c ∧ c ≤ '5'), RE.rep clsDigit 14 (some 14)],
      reCat [chr '3', RE.cls (fun c => c = '4' || c = '7'), RE.rep clsDigit 13 (some 13)],
      reCat [chr '6', RE.alt (reStr ("011")) (reCat [chr '5', RE.rep clsDigit 2 (some 2)]),
             RE.rep clsDigit 12 (some 12)]],
   RE.wb]

/-- `/\b\d{3}-\d{2}-\d{4}\b/g` -/
def reSSN : RE := reCat
  [RE.wb, RE.rep clsDigit 3 (some 3), chr '-', RE.rep clsDigit 2 (some 2), chr '-',
   RE.rep clsDigit 4 (some 4), RE.wb]

/-- `/-----BEGIN (?:RSA |EC |DSA |OPENSSH )?PRIVATE KEY-----/gi` -/
def rePrivateKey : RE := reCat
  [reStrCI ("-----BEGIN "),
   reOpt (reAlts [reStrCI ("RSA "), reStrCI ("EC "), reStrCI ("DSA "), reStrCI ("OPENSSH ")]),
   reStrCI ("PRIVATE KEY-----")]

/-- `/(?:mongodb|mysql|postgresql|redis|amqp):\/\/[^\s]+/gi` -/
def reConnString : RE := reCat
  [reAlts [reStrCI ("mongodb"), reStrCI ("mysql"), reStrCI ("postgresql"),
           reStrCI ("redis"), reStrCI ("amqp")],
   reStr ("://"), rePlus clsNonWs]

/-- `/[a-zA-Z0-9._%+-]+@[a-zA-Z0-9.-]+\.[a-zA-Z]{2,}:[^\s]+/gi` -/
def reEmailPassword : RE := reCat
  [rePlus clsEmailLocal, chr '@', rePlus clsEmailDomain, chr '.',
   RE.rep clsAlpha 2 none, chr ':', rePlus clsNonWs]

/-- `SENSITIVE_PATTERNS` (guardrails.ts lines 7-38), in source order. -/
def SENSITIVE_PATTERNS : List (RE × Str) :=
  [(reApiKey, ("API Key").toList),
   (reBearer, ("Bearer Token").toList),
   (reOpenAIKey, ("OpenAI API Key").toList),
   (reGithubToken, ("GitHub Token").toList),
   (reGithubOAuth, ("GitHub OAuth Token").toList),
   (reSlackToken, ("Slack Token").toList),
   (reAwsAccessKey, ("AWS Access Key").toList),
   (reAwsSecret, ("AWS Secret").toList),
   (rePassword, ("Password").toList),
   (reSecret, ("Secret").toList),
   (reCreditCard, ("Credit Card").toList),
   (reSSN, ("SSN").toList),
   (rePrivateKey, ("Private Key").toList),
   (reConnString, ("Connection String").toList),
   (reEmailPassword, ("Email:Password").toList)]

structure RedactionRecord where
  type : Str
  original : Str
  position : Nat
  deriving DecidableEq, Repr

structure RedactionResult where
  text : Str
  redactions : List RedactionRecord
  hasSecrets : Bool
  deriving DecidableEq, Repr

/-- JS `String.prototype.replace` with a string pattern: replace the
first occurrence only; no occurrence leaves the string unchanged. -/
def replaceFirst : Str → Str → Str → Str
  | s, pat, repl =>
    if pat.isPrefixOf s then repl ++ s.drop pat.length
    else match s with
         | [] => []
         | c :: rest => c :: replaceFirst rest pat repl

/-- The substring `s[i .. i+len)`. -/
def substrAt (s : Str) (i len : Nat) : Str := (s.drop i).take len

/-- The body of the `while ((match = pattern.exec(text)) !== null)` loop
of `redactSecrets`: record a redaction for the match and replace the
first occurrence of the matched text in the evolving result. -/
def redactOne (text : Str) (p : RE × Str) (acc : Str × List RedactionRecord)
    (m : Nat × Nat) : Str × List RedactionRecord :=
  let original := substrAt text m.1 m.2
  let replacement := ("[REDACTED ").toList ++ p.2 ++ ("]").toList
  (replaceFirst acc.1 original replacement,
   acc.2 ++ [{ type := p.2
               original := original.take 4 ++ ("...").toList
               position := m.1 }])

/-- One iteration of the outer loop of `redactSecrets`: run one pattern's
`exec` loop over the ORIGINAL text. -/
def redactStep (text : Str) (acc : Str × List RedactionRecord) (p : RE × Str) :
    Str × List RedactionRecord :=
  (reExecAll p.1 text).foldl (redactOne text p) acc

/-- `redactSecrets` (guardrails.ts lines 78-106). -/
def redactSecrets (text : Str) : RedactionResult :=
  let r := SENSITIVE_PATTERNS.foldl (redactStep text) (text, [])
  { text := r.1
    redactions := r.2
    hasSecrets := decide (r.2.length > 0) }

end Guardrails

section EscalationTriggers

/-- `ESCALATION_KEYWORDS` (guardrails.ts lines 41-63), in source order. -/
def ESCALATION_KEYWORDS : List Str :=
  (["lawsuit", "legal action", "attorney", "lawyer", "sue", "court",
    "compliance", "regulation", "gdpr", "hipaa", "pci", "sox",
    "breach", "hack", "compromised", "unauthorized access", "data leak",
    "ransomware", "malware", "phishing", "security incident",
    "fraud", "charge back", "chargeback", "dispute charge", "unauthorized charge",
    "refund demand", "cancel subscription", "billing error",
    "speak to manager", "supervisor", "escalate", "unacceptable",
    "terrible service", "worst experience", "never again",
    "social media", "bad review", "report you", "bbb",
    "emergency", "urgent", "critical", "production down", "outage"] :
    List String).map String.toList

/-- The keyword category that raises severity to `critical`
(guardrails.ts line 136). -/
def CRITICAL_KEYWORD_KEYS : List Str :=
  (["lawsuit", "legal action", "breach", "hack", "security incident"] : List String).map
    String.toList

/-- The keyword category that raises severity to `high`
(guardrails.ts line 140). -/
def HIGH_KEYWORD_KEYS : List Str :=
  (["compliance", "fraud", "emergency", "production down"] : List String).map String.toList

inductive Severity where
  | low
  | medium
  | high
  | critical
  deriving DecidableEq, Repr

structure EscalationContext where
  failedAttempts : Option Nat
  severity : Option Str
  customerRequested : Bool
  deriving DecidableEq, Repr

structure EscalationCheck where
  shouldEscalate : Bool
  reasons : List Str
  severity : Severity
  deriving DecidableEq, Repr

/-- One iteration of the keyword loop of `checkEscalationTriggers`
(guardrails.ts lines 131-148), acting on the accumulated
`(reasons, severity)` pair.  Note the `high` branch assigns
unconditionally; only the `medium` branch is guarded by the current
severity. -/
def keywordStep (lowerMessage : Str) (acc : List Str × Severity) (keyword : Str) :
    List Str × Severity :=
  if strIncludes lowerMessage (lowerStr keyword) then
    let reasons := acc.1 ++ [("Keyword detected: \"").toList ++ keyword ++ ("\"").toList]
    let severity :=
      if CRITICAL_KEYWORD_KEYS.any (fun k => strIncludes (lowerStr keyword) k) then
        Severity.critical
      else if HIGH_KEYWORD_KEYS.any (fun k => strIncludes (lowerStr keyword) k) then
        Severity.high
      else if acc.2 ≠ Severity.critical ∧ acc.2 ≠ Severity.high then
        Severity.medium
      else acc.2
    (reasons, severity)
  else acc

/-- `if (context.failedAttempts && context.failedAttempts >= 3)`
(guardrails.ts lines 152-155). -/
def ctxFailedStep (ctx : EscalationContext) (acc : List Str × Severity) :
    List Str × Severity :=
  if (match ctx.failedAttempts with
      | some n => decide (3 ≤ n)
      | none => false) then
    (acc.1 ++ [("Multiple failed resolution attempts").toList],
     if acc.2 = Severity.low then Severity.medium else acc.2)
  else acc

/-- `if (context.severity === 'critical' || context.severity === 'high')`
(guardrails.ts lines 157-160). -/
def ctxSeverityStep (ctx : EscalationContext) (acc : List Str × Severity) :
    List Str × Severity :=
  if ctx.severity = some (("critical").toList) ∨ ctx.severity = some (("high").toList) then
    (acc.1 ++ [("Case severity: ").toList ++ ctx.severity.getD []],
     if ctx.severity = some (("critical").toList) then Severity.critical else Severity.high)
  else acc

/-- `if (context.customerRequested)` (guardrails.ts lines 162-165). -/
def ctxCustomerStep (ctx : EscalationContext) (acc : List Str × Severity) :
    List Str × Severity :=
  if ctx.customerRequested then
    (acc.1 ++ [("Customer requested human agent").toList],
     if acc.2 = Severity.low then Severity.medium else acc.2)
  else acc

/-- The context-based triggers of `checkEscalationTriggers`
(guardrails.ts lines 151-166), applied in source order. -/
def contextStep (context : Option EscalationContext) (acc : List Str × Severity) :
    List Str × Severity :=
  match context with
  | none => acc
  | some ctx => ctxCustomerStep ctx (ctxSeverityStep ctx (ctxFailedStep ctx acc))

/-- `checkEscalationTriggers` (guardrails.ts lines 117-173). -/
def checkEscalationTriggers (message : Str) (context : Option EscalationContext) :
    EscalationCheck :=
  let lowerMessage := lowerStr message
  let acc := ESCALATION_KEYWORDS.foldl (keywordStep lowerMessage) ([], Severity.low)
  let acc := contextStep context acc
  { shouldEscalate := decide (acc.1.length > 0)
    reasons := acc.1
    severity := acc.2 }

end EscalationTriggers

section L1Agent

/-!
## Tier-1 agent turn entry — `processL1Request` (l1-agent.ts lines 253-299)

Only the part of the turn that runs before any network call is modelled:
redaction of the inbound message, the escalation-trigger check, and the
critical-severity short-circuit.  `L1Flow.fullTurn` marks the code path
that goes on to perform RAG retrieval (`retrieveRelevantChunks`) and the
LLM call; `L1Flow.earlyEscalation` is the early `return` that performs
neither (its metadata records `tokensUsed: 0` and `ragChunksUsed: 0`).
Context fields not read before the short-circuit decision are omitted.
-/

structure L1AgentContext where
  failedAttempts : Option Nat
  -- 'low' | 'medium' | 'high' | 'critical'
  severity : Str
  deriving DecidableEq, Repr

structure L1EarlyResponse where
  message : Str
  shouldEscalate : Bool
  escalationReason : Str
  -- 'L2' | 'L3'
  escalationLevel : Str
  tokensUsed : Nat
  ragChunksUsed : Nat
  deriving DecidableEq, Repr

inductive L1Flow where
  | earlyEscalation (resp : L1EarlyResponse)
  | fullTurn
  deriving DecidableEq, Repr

/-- `processL1Request` up to the point where the turn either returns the
critical-severity escalation immediately or goes on to retrieval and the
LLM call. -/
def processL1Request (context : L1AgentContext) (userMessage : Str) : L1Flow :=
  let redactedInput := redactSecrets userMessage
  let safeUserMessage := redactedInput.text
  let escalationCheck := checkEscalationTriggers safeUserMessage (some
    { failedAttempts := context.failedAttempts
      severity := some context.severity
      customerRequested :=
        strIncludes (lowerStr safeUserMessage) (("speak to human").toList) ||
        strIncludes (lowerStr safeUserMessage) (("talk to person").toList) })
  if escalationCheck.shouldEscalate ∧ escalationCheck.severity = Severity.critical then
    L1Flow.earlyEscalation
      { message := ("I understand this is a critical matter. I'm connecting you with a human support specialist right away who can assist you better.").toList
        shouldEscalate := true
        escalationReason := List.intercalate (("; ").toList) escalationCheck.reasons
        escalationLevel := ("L3").toList
        tokensUsed := 0
        ragChunksUsed := 0 }
  else L1Flow.fullTurn

end L1Agent

section SortModel

/-!
JS `Array.prototype.sort` with a consistent comparator is modelled by a
stable insertion sort: `le a b` means the comparator allows `a` to stay
before `b` (`comparator(a,b) <= 0`); ties keep original order, as the
ECMAScript specification requires (stable sort). -/

def orderedInsert (le : α → α → Bool) (x : α) : List α → List α
  | [] => [x]
  | y :: ys => if le x y then x :: y :: ys else y :: orderedInsert le x ys

def insertionSort (le : α → α → Bool) (l : List α) : List α :=
  l.foldr (orderedInsert le) []

end SortModel

section Retrieval

/-!
## Retrieval engine — `src/lib/knowledge-base/retrieval.ts`

`retrieveRelevantChunks` embeds the query and calls the external vector
index (`queryVectors`); the model takes the index's response `results` — the
list of scored matches in the order the index returned them — as a parameter
and covers everything the function computes after that call (score
filtering and result shaping).  Scores are modelled as `ℚ`.
-/

structure VectorMetadata where
  tenantId : Str
  kbId : Str
  docId : Str
  product : Str
  chunkIndex : Nat
  content : Str
  language : Str
  deriving DecidableEq, Repr

/-- One element of the `queryVectors` response
(`{ id, score, metadata? }`, pinecone.ts line 71). -/
structure QueryMatch where
  id : Str
  score : ℚ
  metadata : Option VectorMetadata
  deriving DecidableEq, Repr

structure RetrievalResultMetadata where
  kbId : Str
  docId : Str
  product : Str
  chunkIndex : Nat
  language : Str
  deriving DecidableEq, Repr

structure RetrievalResult where
  content : Str
  score : ℚ
  metadata : RetrievalResultMetadata
  deriving DecidableEq, Repr

structure RetrievalOptions where
  topK : Option Nat
  minScore : Option ℚ
  product : Option Str
  kbId : Option Str
  language : Option Str
  deriving DecidableEq, Repr

/-- `retrieveRelevantChunks` (retrieval.ts lines 25-74) after the vector
index responded with `matches`.  `topK`/`product`/`kbId`/`language` only
parameterise the external query; the post-processing is
`results.filter((r) => r.score >= minScore).map(...)` — note there is no
sort here. -/
def retrieveRelevantChunks (results : List QueryMatch) (options : RetrievalOptions) :
    List RetrievalResult :=
  let minScore := options.minScore.getD (7 / 10)
  (results.filter (fun result => minScore ≤ result.score)).map (fun result =>
    { content := (result.metadata.map (fun m => m.content)).getD []
      score := result.score
      metadata :=
        { kbId := (result.metadata.map (fun m => m.kbId)).getD []
          docId := (result.metadata.map (fun m => m.docId)).getD []
          product := (result.metadata.map (fun m => m.product)).getD []
          chunkIndex := (result.metadata.map (fun m => m.chunkIndex)).getD 0
          -- `result.metadata?.language || 'en'` — empty string is falsy
          language := match result.metadata with
                      | some m => if m.language = [] then ("en").toList else m.language
                      | none => ("en").toList } })

/-- Comparator `(a, b) => b.score - a.score` (descending by score). -/
def scoreDescLe (a b : RetrievalResult) : Bool := decide (b.score ≤ a.score)

/-- The accumulation loop of `assembleContext` (retrieval.ts lines
94-109).  `totalTokens ≤ maxTokens` holds at every reachable call, so
the JS subtraction `maxTokens - totalTokens` is the `Nat` one. -/
def assembleLoop (maxTokens : Nat) : List RetrievalResult → Str → Nat → Str
  | [], context, _ => context
  | chunk :: rest, context, totalTokens =>
    let chunkTokens := estimateTokens chunk.content
    if totalTokens + chunkTokens > maxTokens then
      let remainingTokens := maxTokens - totalTokens
      let truncatedContent := chunk.content.take (remainingTokens * 4)
      if truncatedContent.length > 100 then
        context ++ ("\n---\n").toList ++ truncatedContent ++ ("...").toList
      else context
    else
      assembleLoop maxTokens rest (context ++ ("\n---\n").toList ++ chunk.content)
        (totalTokens + chunkTokens)

/-- `assembleContext` (retrieval.ts lines 77-112); source default for
`maxTokens` is 2000. -/
def assembleContext (chunks : List RetrievalResult) (maxTokens : Nat) : Str :=
  if chunks = [] then []
  else
    let sortedChunks := insertionSort scoreDescLe chunks
    jsTrim (assembleLoop maxTokens sortedChunks [] 0)

end Retrieval

section Embeddings

/-!
## Embedding service — `src/lib/knowledge-base/embeddings.ts`

`generateEmbeddings` calls the provider once per batch of at most
`MAX_BATCH_SIZE` inputs; the provider is modelled as a function from the
batch to the list of embeddings of its `response.data` (in response
order).  The progress callback and the inter-batch delay are side
effects with no influence on the result and are not modelled; a provider
error aborts the whole call in the source, so the model's provider is
total.
-/

structure EmbeddingResult where
  text : Str
  embedding : List ℚ
  index : Nat
  deriving DecidableEq, Repr

def MAX_BATCH_SIZE : Nat := 100

/-- The batching loop of `generateEmbeddings` (embeddings.ts lines
51-84): slice off up to 100 texts, call the provider, and tag each
returned embedding with its original index `i + j`. -/
def generateEmbeddingsGo (provider : List Str → List (List ℚ)) (ts : List Str)
    (i : Nat) : List EmbeddingResult :=
  match ts with
  | [] => []
  | t :: rest =>
    let batch := (t :: rest).take MAX_BATCH_SIZE
    let response := provider batch
    let batchResults := (List.range response.length).map (fun j =>
      { text := batch.getD j []
        embedding := response.getD j []
        index := i + j : EmbeddingResult })
    batchResults ++
      generateEmbeddingsGo provider ((t :: rest).drop MAX_BATCH_SIZE) (i + MAX_BATCH_SIZE)
termination_by ts.length
decreasing_by
  simp [MAX_BATCH_SIZE]
  omega

/-- `generateEmbeddings` (embeddings.ts lines 43-88): run the batches,
then `results.sort((a, b) => a.index - b.index)`. -/
def generateEmbeddings (provider : List Str → List (List ℚ)) (texts : List Str) :
    List EmbeddingResult :=
  insertionSort (fun a b => decide (a.index ≤ b.index)) (generateEmbeddingsGo provider texts 0)

def dotProduct (a b : List ℚ) : ℚ := ((a.zip b).map (fun p => p.1 * p.2)).sum

def sumSquares (a : List ℚ) : ℚ := (a.map (fun x => x * x)).sum

/-- `cosineSimilarity` (embeddings.ts lines 91-112).  `Math.sqrt` is an
opaque parameter (its value is irrational in general); the guard `normA
=== 0 || normB === 0` is taken before the division, exactly as in the
source.  The length-mismatch `throw` is the `Except.error` branch. -/
def cosineSimilarity (sqrt : ℚ → ℚ) (a b : List ℚ) : Except Str ℚ :=
  if a.length ≠ b.length then
    Except.error (("Vectors must have the same length").toList)
  else
    let dp := dotProduct a b
    let normA := sqrt (sumSquares a)
    let normB := sqrt (sumSquares b)
    if normA = 0 ∨ normB = 0 then Except.ok 0
    else Except.ok (dp / (normA * normB))

end Embeddings

section Chunker

/-!
## Text chunker — `src/lib/knowledge-base/chunker.ts`

The three normalisation regex replaces (`/\r\n/g → '\n'`, `/\t/g → ' '`,
`/ {2,}/g → ' '`), the paragraph split (`/\n{2,}/`) and the sentence
separator (`/([.!?]+[\s\n]+|[\n]{2,})/g`) are simple enough to be
transcribed directly as character-level functions with the same
semantics (global replace / split consume maximal, leftmost,
non-overlapping matches; the alternative `[.!?]+[\s\n]+` is tried
first, and since `[.!?]` and `[\s\n]` are disjoint the greedy match
needs no backtracking).

`splitIntoSentences` in the source tests each part of
`text.split(sentenceEndings)` with `sentenceEndings.test(part)` on a
shared `/g` regex whose `lastIndex` persists across calls.  This is
still equivalent to "the part is one of the captured separators":
non-separator parts contain no match of the pattern at any position
(otherwise the split would have cut them, and dropping trailing
characters cannot create a match), so `test` returns `false` on them
from any `lastIndex` and resets `lastIndex` to 0, and separator parts
are therefore always tested from position 0, where they match.
The model tags each part with its separator status at construction.
-/

theorem length_dropWhile_le (p : α → Bool) (l : List α) :
    (l.dropWhile p).length ≤ l.length := by
  induction l with
  | nil => simp [List.dropWhile]
  | cons c rest ih =>
    by_cases h : p c
    · simp [List.dropWhile, h]
      omega
    · simp [List.dropWhile, h]

/-- `.replace(/\r\n/g, '\n')` -/
def normalizeCRLF : Str → Str
  | [] => []
  | '\r' :: '\n' :: rest => '\n' :: normalizeCRLF rest
  | c :: rest => c :: normalizeCRLF rest

/-- `.replace(/\t/g, ' ')` -/
def replaceTabs (s : Str) : Str := s.map (fun c => if c = '\t' then ' ' else c)

/-- `.replace(/ {2,}/g, ' ')`: collapse each maximal run of two or more
spaces to a single space.  Fuelled so that the definition unfolds by
iota reduction (each step consumes at least one character, so
`length + 1` fuel never runs out). -/
def collapseSpacesGo : Nat → Str → Str
  | 0, s => s
  | _, [] => []
  | fuel + 1, ' ' :: ' ' :: rest =>
    ' ' :: collapseSpacesGo fuel (rest.dropWhile (fun c => c = ' '))
  | fuel + 1, c :: rest => c :: collapseSpacesGo fuel rest

def collapseSpaces (s : Str) : Str := collapseSpacesGo (s.length + 1) s

/-- The `cleanText` normalisation of `chunkText` (chunker.ts lines 67-71). -/
def cleanTextOf (text : Str) : Str :=
  jsTrim (collapseSpaces (replaceTabs (normalizeCRLF text)))

/-- `text.split(/\n{2,}/)`: maximal runs of two or more newlines are
separators.  The accumulator is kept reversed; fuelled like
`collapseSpacesGo`. -/
def splitParasGo : Nat → Str → Str → List Str
  | 0, s, cur => [cur.reverse ++ s]
  | _, [], cur => [cur.reverse]
  | fuel + 1, '\n' :: '\n' :: rest, cur =>
    cur.reverse :: splitParasGo fuel (rest.dropWhile (fun c => c = '\n')) []
  | fuel + 1, c :: rest, cur => splitParasGo fuel rest (c :: cur)

/-- `splitIntoParagraphs` (chunker.ts lines 52-54). -/
def splitIntoParagraphs (text : Str) : List Str :=
  (splitParasGo (text.length + 1) text []).filter (fun p => jsTrim p ≠ [])

def isSentPunct (c : Char) : Bool := c = '.' || c = '!' || c = '?'

/-- Length of a match of `([.!?]+[\s\n]+|[\n]{2,})` starting exactly at
the head of `s`, if any. -/
def sentSepLen (s : Str) : Option Nat :=
  let punct := s.takeWhile isSentPunct
  if punct ≠ [] then
    let ws := (s.drop punct.length).takeWhile isJsWs
    if ws ≠ [] then some (punct.length + ws.length)
    else
      let nls := s.takeWhile (fun c => c = '\n')
      if 2 ≤ nls.length then some nls.length else none
  else
    let nls := s.takeWhile (fun c => c = '\n')
    if 2 ≤ nls.length then some nls.length else none

/-- Scan for the separator parts of `text.split(sentenceEndings)`,
producing the parts in order tagged with `true` when the part is a
captured separator.  The accumulator is kept reversed. -/
def sentenceScan : Nat → Str → Str → List (Str × Bool)
  | _, [], seg => [(seg.reverse, false)]
  | 0, rest, seg => [(seg.reverse ++ rest, false)]
  | fuel + 1, rest, seg =>
    match sentSepLen rest with
    | some len =>
      (seg.reverse, false) :: (rest.take len, true) ::
        sentenceScan fuel (rest.drop len) []
    | none =>
      match rest with
      | [] => [(seg.reverse, false)]
      | c :: rest' => sentenceScan fuel rest' (c :: seg)

def sentenceParts (text : Str) : List (Str × Bool) :=
  sentenceScan (text.length + 1) text []

/-- `splitIntoSentences` (chunker.ts lines 24-49). -/
def splitIntoSentences (text : Str) : List Str :=
  let parts := sentenceParts text
  let r := parts.foldl
    (fun (acc : List Str × Str) part =>
      if part.2 then
        let current := acc.2 ++ part.1
        if jsTrim current ≠ [] then (acc.1 ++ [jsTrim current], []) else (acc.1, [])
      else (acc.1, acc.2 ++ part.1))
    ([], [])
  if jsTrim r.2 ≠ [] then r.1 ++ [jsTrim r.2] else r.1

/-- JS `s.slice(-n)` for `n ≥ 0` (note `slice(-0)` is `slice(0)`, the
whole string). -/
def jsSliceNeg (s : Str) (n : Nat) : Str :=
  if n = 0 then s else s.drop (s.length - n)

/-- The descending loop of `getOverlapText` (chunker.ts lines 232-238):
the final value of `overlap` is the last assignment, i.e. the candidate
for the smallest `i` whose length fits. -/
def overlapPick (sentences : List Str) (targetChars : Nat) : Str :=
  (List.range sentences.length).foldl
    (fun ov k =>
      let i := sentences.length - 1 - k
      let candidate := List.intercalate ([' ']) (sentences.drop i)
      if candidate.length ≤ targetChars then candidate else ov)
    []

/-- `getOverlapText` (chunker.ts lines 222-243). -/
def getOverlapText (text : Str) (overlapTokens : Nat) : Str :=
  let targetChars := overlapTokens * 4
  if text.length ≤ targetChars then text
  else
    let endPortion := jsSliceNeg text (targetChars * 2)
    let sentences := splitIntoSentences endPortion
    if 1 < sentences.length then
      let overlap := overlapPick sentences targetChars
      if overlap ≠ [] then overlap else jsSliceNeg text targetChars
    else jsSliceNeg text targetChars

/-- `Omit<TextChunk, 'index'>` — what `chunkSection` produces. -/
structure ChunkPiece where
  content : Str
  startChar : Nat
  endChar : Nat
  tokenEstimate : Nat
  deriving DecidableEq, Repr

structure TextChunk where
  content : Str
  index : Nat
  startChar : Nat
  endChar : Nat
  tokenEstimate : Nat
  deriving DecidableEq, Repr

/-- The mutable locals of `chunkSection`'s loops: emitted chunks, the
accumulating buffer (`currentChunk`/`sentenceChunk`), its start offset,
and `charOffset`.  JS offset arithmetic `charOffset - overlapText.length`
is modelled with truncated `Nat` subtraction. -/
structure LoopState where
  chunks : List ChunkPiece
  buf : Str
  bufStart : Nat
  offset : Nat
  deriving DecidableEq, Repr

/-- The inner sentence loop of `chunkSection` (chunker.ts lines 143-164). -/
def sentenceLoop (maxTokens overlapTokens : Nat) (sentences : List Str)
    (st : LoopState) : LoopState :=
  match sentences with
  | [] => st
  | sentence :: rest =>
    let sentenceTokens := estimateTokens sentence
    let chunkTokens := estimateTokens st.buf
    if chunkTokens + sentenceTokens > maxTokens ∧ jsTrim st.buf ≠ [] then
      let chunks := st.chunks ++
        [{ content := jsTrim st.buf
           startChar := st.bufStart
           endChar := st.offset
           tokenEstimate := chunkTokens }]
      let overlapText := getOverlapText st.buf overlapTokens
      sentenceLoop maxTokens overlapTokens rest
        { chunks := chunks
          buf := overlapText ++ (' ' :: sentence)
          bufStart := st.offset - overlapText.length
          offset := st.offset + sentence.length + 1 }
    else
      sentenceLoop maxTokens overlapTokens rest
        { st with
          buf := st.buf ++ (if st.buf = [] then [] else [' ']) ++ sentence
          offset := st.offset + sentence.length + 1 }

/-- The outer paragraph loop of `chunkSection` (chunker.ts lines 121-192). -/
def paragraphLoop (maxTokens minTokens overlapTokens : Nat) (paragraphs : List Str)
    (st : LoopState) : LoopState :=
  match paragraphs with
  | [] => st
  | paragraph :: rest =>
    let paragraphTokens := estimateTokens paragraph
    let currentTokens := estimateTokens st.buf
    if paragraphTokens > maxTokens then
      -- flush the current chunk if non-empty, then split by sentences
      let st1 :=
        if jsTrim st.buf ≠ [] then
          { st with
            chunks := st.chunks ++
              [{ content := jsTrim st.buf
                 startChar := st.bufStart
                 endChar := st.offset
                 tokenEstimate := estimateTokens st.buf }]
            buf := [] }
        else st
      let sentences := splitIntoSentences paragraph
      let r := sentenceLoop maxTokens overlapTokens sentences
        { chunks := st1.chunks, buf := [], bufStart := st1.offset, offset := st1.offset }
      -- keep remaining sentences as the new current chunk
      let st2 :=
        if jsTrim r.buf ≠ [] then
          { chunks := r.chunks, buf := r.buf, bufStart := r.bufStart, offset := r.offset }
        else
          { chunks := r.chunks, buf := st1.buf, bufStart := st1.bufStart, offset := r.offset }
      paragraphLoop maxTokens minTokens overlapTokens rest st2
    else if currentTokens + paragraphTokens > maxTokens then
      let st1 :=
        if jsTrim st.buf ≠ [] then
          { st with
            chunks := st.chunks ++
              [{ content := jsTrim st.buf
                 startChar := st.bufStart
                 endChar := st.offset
                 tokenEstimate := currentTokens }] }
        else st
      let overlapText := getOverlapText st.buf overlapTokens
      paragraphLoop maxTokens minTokens overlapTokens rest
        { chunks := st1.chunks
          buf := overlapText ++ ('\n' :: '\n' :: paragraph)
          bufStart := st.offset - overlapText.length
          offset := st.offset + paragraph.length + 2 }
    else
      paragraphLoop maxTokens minTokens overlapTokens rest
        { st with
          buf := st.buf ++ (if st.buf = [] then [] else ['\n', '\n']) ++ paragraph
          offset := st.offset + paragraph.length + 2 }

/-- `chunkSection` (chunker.ts lines 108-219): the paragraph loop
followed by the final flush / small-last-chunk merge. -/
def chunkSection (text : Str) (maxTokens minTokens overlapTokens : Nat) :
    List ChunkPiece :=
  let paragraphs := splitIntoParagraphs text
  let st := paragraphLoop maxTokens minTokens overlapTokens paragraphs
    { chunks := [], buf := [], bufStart := 0, offset := 0 }
  if jsTrim st.buf ≠ [] ∧ minTokens ≤ estimateTokens st.buf then
    st.chunks ++
      [{ content := jsTrim st.buf
         startChar := st.bufStart
         endChar := st.offset
         tokenEstimate := estimateTokens st.buf }]
  else if jsTrim st.buf ≠ [] ∧ st.chunks ≠ [] then
    match st.chunks.getLast? with
    | some last =>
      st.chunks.dropLast ++
        [{ content := last.content ++ ('\n' :: '\n' :: jsTrim st.buf)
           startChar := last.startChar
           endChar := st.offset
           tokenEstimate := estimateTokens (last.content ++ ('\n' :: '\n' :: jsTrim st.buf)) }]
    | none => st.chunks
  else if jsTrim st.buf ≠ [] then
    st.chunks ++
      [{ content := jsTrim st.buf
         startChar := st.bufStart
         endChar := st.offset
         tokenEstimate := estimateTokens st.buf }]
  else st.chunks

/-- The lookahead body `#{1,6}\s+` of the section split. -/
def headerBodyRE : RE := reCat [RE.rep (chr '#') 1 (some 6), rePlus (RE.cls isJsWs)]

/-- `/^(#{1,6})\s+(.+)$/gm` (test only, so the capture groups are
irrelevant). -/
def headerLineRE : RE :=
  reCat [RE.bol, RE.rep (chr '#') 1 (some 6), rePlus (RE.cls isJsWs),
         rePlus (RE.cls (fun c => !isLineTerm c)), RE.eol]

def hasHeaders (s : Str) : Bool := reTest headerLineRE s

/-- Does the lookahead `(?=^#{1,6}\s+)` (multiline) hold at position `p > 0`? -/
def isHeaderStart (s : Str) (p : Nat) : Bool :=
  (match s.get? (p - 1) with
   | some c => isLineTerm c
   | none => false) &&
  (reMatch (reFuel (s.drop p)) headerBodyRE (s.get? (p - 1)) (s.drop p)
    (fun _ r => some r)).isSome

/-- The split positions of `cleanText.split(/(?=^#{1,6}\s+)/m)`
(a zero-width match at position 0 never splits). -/
def sectionSplitPositions (s : Str) : List Nat :=
  (List.range s.length).filter (fun p => p ≠ 0 && isHeaderStart s p)

def splitAtPositions (s : Str) (ps : List Nat) (start : Nat) : List Str :=
  match ps with
  | [] => [s.drop start]
  | p :: rest => ((s.drop start).take (p - start)) :: splitAtPositions s rest p

/-- `cleanText.split(/(?=^#{1,6}\s+)/m).filter((s) => s.trim())`
(chunker.ts line 81). -/
def sectionsOf (s : Str) : List Str :=
  (splitAtPositions s (sectionSplitPositions s) 0).filter (fun x => jsTrim x ≠ [])

structure ChunkOptions where
  maxTokens : Option Nat
  minTokens : Option Nat
  overlapTokens : Option Nat
  deriving DecidableEq, Repr

/-- `chunkText` (chunker.ts lines 57-105). -/
def chunkText (text : Str) (options : ChunkOptions) : List TextChunk :=
  let maxTokens := options.maxTokens.getD 500
  let minTokens := options.minTokens.getD 100
  let overlapTokens := options.overlapTokens.getD 50
  let cleanText := cleanTextOf text
  if cleanText = [] then []
  else if hasHeaders cleanText then
    ((sectionsOf cleanText).foldl
      (fun (acc : List TextChunk × Nat) sec =>
        let sectionChunks := chunkSection sec maxTokens minTokens overlapTokens
        (acc.1 ++ sectionChunks.enum.map (fun jc =>
          { content := jc.2.content
            index := acc.1.length + jc.1
            startChar := acc.2 + jc.2.startChar
            endChar := acc.2 + jc.2.endChar
            tokenEstimate := jc.2.tokenEstimate }),
         acc.2 + sec.length))
      ([], 0)).1
  else
    (chunkSection cleanText maxTokens minTokens overlapTokens).enum.map (fun ic =>
      { content := ic.2.content
        index := ic.1
        startChar := ic.2.startChar
        endChar := ic.2.endChar
        tokenEstimate := ic.2.tokenEstimate })

end Chunker

section ClaimsPlaybook

/-- The effective per-step attempt limit computed by `executeStep`:
`step.maxAttempts || 3` (JS `||`, so `0` also falls back to 3). -/
def effectiveMaxAttempts (step : PlaybookStep) : Nat :=
  match step.maxAttempts with
  | some m => if m = 0 then 3 else m
  | none => 3

/-- C4: executing the current step with outcome `success` appends the
step id to `completedSteps`; if the step has a `nextOnSuccess` the
current step id becomes that id, otherwise the execution outcome becomes
`resolved`. -/
theorem executeStep_success_advances (playbook : Playbook)
    (state : PlaybookExecutionState) (step : PlaybookStep)
    (h : getCurrentStep playbook state = some step) :
    ((executeStep playbook state StepOutcome.success).1.completedSteps =
        state.completedSteps ++ [step.id]) ∧
    (∀ nid, step.nextOnSuccess = some nid →
        (executeStep playbook state StepOutcome.success).1.currentStepId = nid) ∧
    (step.nextOnSuccess = none →
        (executeStep playbook state StepOutcome.success).1.outcome =
          PlaybookOutcome.resolved) := by
  cases hn : step.nextOnSuccess with
  | none => simp [executeStep, h, hn]
  | some nid => simp [executeStep, h, hn]

def stepC4 : PlaybookStep :=
  { id := ("s1").toList
    title := ("check cable").toList
    instruction := ("check the cable").toList
    expectedOutcome := none
    failureHint := none
    nextOnSuccess := none
    nextOnFailure := none
    escalateOnFailure := none
    maxAttempts := none }

def pbC4 : Playbook :=
  { metadata := { id := ("pb-1").toList, name := ("Network playbook").toList }
    steps := [stepC4]
    vars := none }

theorem executeStep_success_advances_witness :
    getCurrentStep pbC4 (createExecutionState pbC4) = some stepC4 ∧
    (((executeStep pbC4 (createExecutionState pbC4) StepOutcome.success).1.completedSteps =
        (createExecutionState pbC4).completedSteps ++ [stepC4.id]) ∧
     (∀ nid, stepC4.nextOnSuccess = some nid →
        (executeStep pbC4 (createExecutionState pbC4) StepOutcome.success).1.currentStepId = nid) ∧
     (stepC4.nextOnSuccess = none →
        (executeStep pbC4 (createExecutionState pbC4) StepOutcome.success).1.outcome =
          PlaybookOutcome.resolved)) :=
  ⟨by decide, executeStep_success_advances pbC4 (createExecutionState pbC4) stepC4 (by decide)⟩

/-- C3 (amended): when the current step resolves and the incremented
attempt count exceeds the *effective* max attempts (`step.maxAttempts`
if positive, else 3), a `failure` outcome records the step id in
`failedSteps` and signals `shouldEscalate = step.escalateOnFailure ?? true`. -/
theorem executeStep_failure_exceeds_effective_max (playbook : Playbook)
    (state : PlaybookExecutionState) (step : PlaybookStep)
    (h : getCurrentStep playbook state = some step)
    (hatt : attemptsLookup state.stepAttempts step.id + 1 > effectiveMaxAttempts step) :
    ((executeStep playbook state StepOutcome.failure).1.failedSteps =
        state.failedSteps ++ [step.id]) ∧
    ((executeStep playbook state StepOutcome.failure).2.shouldEscalate =
        step.escalateOnFailure.getD true) := by
  unfold effectiveMaxAttempts at hatt
  simp [executeStep, h, hatt]

def stepC3w : PlaybookStep :=
  { id := ("s1").toList
    title := ("restart app").toList
    instruction := ("restart the app").toList
    expectedOutcome := none
    failureHint := none
    nextOnSuccess := none
    nextOnFailure := none
    escalateOnFailure := none
    maxAttempts := none }

def pbC3w : Playbook :=
  { metadata := { id := ("pb-2").toList, name := ("Crash playbook").toList }
    steps := [stepC3w]
    vars := none }

def stC3w : PlaybookExecutionState :=
  { playbookId := ("pb-2").toList
    currentStepId := ("s1").toList
    stepAttempts := [(("s1").toList, 3)]
    completedSteps := []
    failedSteps := []
    vars := []
    outcome := PlaybookOutcome.in_progress }

theorem executeStep_failure_exceeds_effective_max_witness :
    (getCurrentStep pbC3w stC3w = some stepC3w ∧
     attemptsLookup stC3w.stepAttempts stepC3w.id + 1 > effectiveMaxAttempts stepC3w) ∧
    (((executeStep pbC3w stC3w StepOutcome.failure).1.failedSteps =
        stC3w.failedSteps ++ [stepC3w.id]) ∧
     ((executeStep pbC3w stC3w StepOutcome.failure).2.shouldEscalate =
        stepC3w.escalateOnFailure.getD true)) :=
  ⟨⟨by decide, by decide⟩,
   executeStep_failure_exceeds_effective_max pbC3w stC3w stepC3w (by decide) (by decide)⟩

def stepC3 : PlaybookStep :=
  { id := ("s1").toList
    title := ("restart app").toList
    instruction := ("restart the app").toList
    expectedOutcome := none
    failureHint := none
    nextOnSuccess := none
    nextOnFailure := none
    escalateOnFailure := none
    maxAttempts := some 0 }

def pbC3 : Playbook :=
  { metadata := { id := ("pb-3").toList, name := ("Zero playbook").toList }
    steps := [stepC3]
    vars := none }

/-- C3 (counterexample): with `maxAttempts = 0` the claim's premise holds
on the first failure (the incremented count 1 exceeds the declared
`maxAttempts ?? 3 = 0`), yet the code neither records the step in
`failedSteps` nor signals `escalateOnFailure ?? true`, because it
computes the limit with `||` and treats 0 as 3. -/
theorem executeStep_maxAttempts_zero_cex :
    getCurrentStep pbC3 (createExecutionState pbC3) = some stepC3 ∧
    attemptsLookup (createExecutionState pbC3).stepAttempts stepC3.id + 1 >
      stepC3.maxAttempts.getD 3 ∧
    (executeStep pbC3 (createExecutionState pbC3) StepOutcome.failure).1.failedSteps = [] ∧
    (executeStep pbC3 (createExecutionState pbC3) StepOutcome.failure).2.shouldEscalate
      = false ∧
    stepC3.escalateOnFailure.getD true = true := by
  decide

end ClaimsPlaybook

section ClaimsSimilarity

/-- C10: `cosineSimilarity` is total on equal-length vectors (no error is
raised beyond the length check), and whenever either vector has zero
norm the guard in front of the division returns 0 — the division is
unreachable in that case.  `Math.sqrt` enters as an opaque parameter;
only `sqrt 0 = 0` (true of the IEEE `Math.sqrt`) is needed. -/
theorem cosineSimilarity_total_zero_norm (sqrt : ℚ → ℚ) (a b : List ℚ)
    (hlen : a.length = b.length) (hs : sqrt 0 = 0) :
    (cosineSimilarity sqrt a b).isOk = true ∧
    ((sumSquares a = 0 ∨ sumSquares b = 0) →
      cosineSimilarity sqrt a b = Except.ok 0) := by
  constructor
  · unfold cosineSimilarity
    rw [if_neg (by simp [hlen])]
    by_cases hg : sqrt (sumSquares a) = 0 ∨ sqrt (sumSquares b) = 0
    · simp only [hg, if_true]
      rfl
    · simp only [hg, if_false]
      rfl
  · rintro (h | h) <;>
    · simp only [cosineSimilarity, hlen, h, hs]
      simp

theorem cosineSimilarity_total_zero_norm_witness :
    (([0, 0] : List ℚ).length = ([0, 0] : List ℚ).length ∧ (fun _ : ℚ => (0 : ℚ)) 0 = 0 ∧
      sumSquares ([0, 0] : List ℚ) = 0) ∧
    cosineSimilarity (fun _ => 0) ([0, 0] : List ℚ) ([0, 0] : List ℚ) = Except.ok 0 :=
  ⟨⟨rfl, rfl, by norm_num [sumSquares]⟩,
   (cosineSimilarity_total_zero_norm (fun _ => 0) [0, 0] [0, 0] rfl rfl).2
     (Or.inl (by norm_num [sumSquares]))⟩

end ClaimsSimilarity

section ClaimsRetrievalFilter

/-- C7 (amended): `retrieveRelevantChunks` keeps exactly the matches with
score ≥ `minScore` (default 0.7), but in the order the vector index
returned them — the function performs no sort (scores of the output are
the scores of the filtered input, position by position). -/
theorem retrieveRelevantChunks_filter_preserves_order (results : List QueryMatch)
    (options : RetrievalOptions) :
    ((retrieveRelevantChunks results options).map (fun r => r.score) =
      (results.filter (fun r => options.minScore.getD (7 / 10) ≤ r.score)).map
        (fun r => r.score)) ∧
    (∀ r ∈ retrieveRelevantChunks results options,
      options.minScore.getD (7 / 10) ≤ r.score) := by
  constructor
  · unfold retrieveRelevantChunks
    simp [List.map_map]
  · intro r hr
    unfold retrieveRelevantChunks at hr
    simp only [List.mem_map, List.mem_filter] at hr
    obtain ⟨q, ⟨_, hq⟩, rfl⟩ := hr
    simpa using hq

def qmC7a : QueryMatch := { id := ("m1").toList, score := 8 / 10, metadata := none }

def qmC7b : QueryMatch := { id := ("m2").toList, score := 9 / 10, metadata := none }

def optsC7 : RetrievalOptions :=
  { topK := none, minScore := none, product := none, kbId := none, language := none }

/-- C7 (counterexample): when the index returns matches out of score
order — here scores 0.8 then 0.9, both above the default 0.7 —
`retrieveRelevantChunks` returns them in the same order, which is not
sorted by descending score. -/
theorem retrieveRelevantChunks_not_sorted_cex :
    ((retrieveRelevantChunks [qmC7a, qmC7b] optsC7).map (fun r => r.score) =
      [8 / 10, 9 / 10]) ∧
    ¬ List.Sorted (fun a b : ℚ => b ≤ a)
        ((retrieveRelevantChunks [qmC7a, qmC7b] optsC7).map (fun r => r.score)) := by
  have hm : (retrieveRelevantChunks [qmC7a, qmC7b] optsC7).map (fun r => r.score) =
      [8 / 10, 9 / 10] := by
    simp [retrieveRelevantChunks, qmC7a, qmC7b, optsC7, List.filter]
    norm_num
  refine ⟨hm, ?_⟩
  intro hs
  rw [hm] at hs
  have h12 : ((9 : ℚ) / 10 ≤ 8 / 10) := List.rel_of_sorted_cons hs _ (by simp)
  norm_num at h12

end ClaimsRetrievalFilter

section ClaimsEscalation

/-- "severity is `high` or `critical`" — the floor that survives once a
critical keyword has fired. -/
def sevAtLeastHigh (s : Severity) : Prop :=
  s = Severity.high ∨ s = Severity.critical

theorem keywordStep_preserves_high (lowerMessage : Str) (acc : List Str × Severity)
    (kw : Str) (h : sevAtLeastHigh acc.2) :
    sevAtLeastHigh (keywordStep lowerMessage acc kw).2 := by
  unfold keywordStep
  split
  · split
    · exact Or.inr rfl
    · split
      · exact Or.inl rfl
      · split
        · rename_i hcond
          rcases h with h | h <;> simp [h] at hcond
        · exact h
  · exact h

theorem foldl_keywordStep_preserves_high (lowerMessage : Str) (kws : List Str)
    (acc : List Str × Severity) (h : sevAtLeastHigh acc.2) :
    sevAtLeastHigh (kws.foldl (keywordStep lowerMessage) acc).2 := by
  induction kws generalizing acc with
  | nil => exact h
  | cons k rest ih =>
    exact ih _ (keywordStep_preserves_high lowerMessage acc k h)

theorem keywordStep_critical_sets (lowerMessage : Str) (acc : List Str × Severity)
    (kw : Str) (hmatch : strIncludes lowerMessage (lowerStr kw) = true)
    (hcrit : CRITICAL_KEYWORD_KEYS.any (fun k => strIncludes (lowerStr kw) k) = true) :
    (keywordStep lowerMessage acc kw).2 = Severity.critical := by
  unfold keywordStep
  simp [hmatch, hcrit]

theorem ctxFailedStep_preserves_high (ctx : EscalationContext)
    (acc : List Str × Severity) (h : sevAtLeastHigh acc.2) :
    sevAtLeastHigh (ctxFailedStep ctx acc).2 := by
  unfold ctxFailedStep
  rcases h with h | h <;> split <;> simp [sevAtLeastHigh, h]

theorem ctxSeverityStep_preserves_high (ctx : EscalationContext)
    (acc : List Str × Severity) (h : sevAtLeastHigh acc.2) :
    sevAtLeastHigh (ctxSeverityStep ctx acc).2 := by
  unfold ctxSeverityStep
  split
  · split
    · exact Or.inr rfl
    · exact Or.inl rfl
  · exact h

theorem ctxCustomerStep_preserves_high (ctx : EscalationContext)
    (acc : List Str × Severity) (h : sevAtLeastHigh acc.2) :
    sevAtLeastHigh (ctxCustomerStep ctx acc).2 := by
  unfold ctxCustomerStep
  rcases h with h | h <;> split <;> simp [sevAtLeastHigh, h]

theorem contextStep_preserves_high (context : Option EscalationContext)
    (acc : List Str × Severity) (h : sevAtLeastHigh acc.2) :
    sevAtLeastHigh (contextStep context acc).2 := by
  rcases context with _ | ctx
  · exact h
  · exact ctxCustomerStep_preserves_high ctx _
      (ctxSeverityStep_preserves_high ctx _ (ctxFailedStep_preserves_high ctx _ h))

/-- C1 (amended): once a critical-category keyword matches, the returned
severity is never `low` or `medium` — later medium-category keyword
matches and the failed-attempts / customer-requested context signals
never downgrade it below `high`.  (A later high-category keyword match,
or a context case severity of `'high'`, can still lower `critical` to
`high` — see the counterexample.) -/
theorem checkEscalationTriggers_critical_keyword_floor (message : Str)
    (context : Option EscalationContext)
    (h : ∃ kw ∈ ESCALATION_KEYWORDS,
      strIncludes (lowerStr message) (lowerStr kw) = true ∧
      CRITICAL_KEYWORD_KEYS.any (fun k => strIncludes (lowerStr kw) k) = true) :
    sevAtLeastHigh (checkEscalationTriggers message context).severity := by
  obtain ⟨kw, hmem, hmatch, hcrit⟩ := h
  unfold checkEscalationTriggers
  apply contextStep_preserves_high
  obtain ⟨pre, post, hsplit⟩ := List.append_of_mem hmem
  rw [hsplit, List.foldl_append, List.foldl_cons]
  apply foldl_keywordStep_preserves_high
  rw [keywordStep_critical_sets (lowerStr message) _ kw hmatch hcrit]
  exact Or.inr rfl

theorem checkEscalationTriggers_critical_keyword_floor_witness :
    (∃ kw ∈ ESCALATION_KEYWORDS,
      strIncludes (lowerStr (("we will file a lawsuit").toList)) (lowerStr kw) = true ∧
      CRITICAL_KEYWORD_KEYS.any (fun k => strIncludes (lowerStr kw) k) = true) ∧
    sevAtLeastHigh
      (checkEscalationTriggers (("we will file a lawsuit").toList) none).severity :=
  ⟨by decide,
   checkEscalationTriggers_critical_keyword_floor (("we will file a lawsuit").toList) none
     (by decide)⟩

/-- C1 (counterexample): on the message `"lawsuit fraud"` the keyword
loop reaches `critical` while processing its first keyword (`'lawsuit'`,
the one-element prefix of `ESCALATION_KEYWORDS`), yet the later match of
the high-category keyword `'fraud'` overwrites the severity, and the
call returns `high` — strictly lower than `critical`. -/
theorem checkEscalationTriggers_downgrade_cex :
    ((ESCALATION_KEYWORDS.take 1).foldl
        (keywordStep (lowerStr (("lawsuit fraud").toList))) ([], Severity.low)).2
      = Severity.critical ∧
    (checkEscalationTriggers (("lawsuit fraud").toList) none).severity = Severity.high := by
  decide

end ClaimsEscalation

section ClaimsL1

def sueMsg : Str := ("I'm going to sue you").toList

def reasonsSue : List Str := [("Keyword detected: \"sue\"").toList]

theorem sue_redact_id : (redactSecrets sueMsg).text = sueMsg := by decide

theorem sue_keyword_fold :
    ESCALATION_KEYWORDS.foldl (keywordStep (lowerStr sueMsg)) ([], Severity.low) =
      (reasonsSue, Severity.medium) := by decide

theorem sue_no_human_request :
    (strIncludes (lowerStr sueMsg) (("speak to human").toList) ||
      strIncludes (lowerStr sueMsg) (("talk to person").toList)) = false := by decide

/-- On the sue message, the escalation check flags escalation but its
severity is `critical` exactly when the case context's severity is the
string `'critical'`; the keyword `'sue'` itself only yields `medium`. -/
theorem sue_check_characterisation (c : EscalationContext)
    (hcr : c.customerRequested = false) :
    (checkEscalationTriggers sueMsg (some c)).shouldEscalate = true ∧
    ((checkEscalationTriggers sueMsg (some c)).severity = Severity.critical ↔
      c.severity = some (("critical").toList)) := by
  simp only [checkEscalationTriggers, sue_keyword_fold, contextStep, ctxFailedStep,
    ctxSeverityStep, ctxCustomerStep, hcr]
  by_cases hf : (match c.failedAttempts with
      | some n => decide (3 ≤ n)
      | none => false) = true <;>
    by_cases h1 : c.severity = some (("critical").toList) <;>
      by_cases h2 : c.severity = some (("high").toList) <;>
        simp_all [reasonsSue]

/-- C2 (amended): on a message containing "I'm going to sue you" the
tier-1 agent short-circuits (no RAG retrieval, no LLM call) if and only
if the case context severity is `'critical'` — the keyword `'sue'` alone
produces severity `medium`, which does not trigger the critical-severity
early return; when the short-circuit does fire, the early response has
`shouldEscalate = true`, `escalationLevel = 'L3'` and zero recorded
token/RAG usage. -/
theorem processL1Request_sue_short_circuit_iff (ctx : L1AgentContext) :
    (ctx.severity ≠ ("critical").toList →
      processL1Request ctx sueMsg = L1Flow.fullTurn) ∧
    (ctx.severity = ("critical").toList →
      ∃ resp, processL1Request ctx sueMsg = L1Flow.earlyEscalation resp ∧
        resp.shouldEscalate = true ∧ resp.escalationLevel = ("L3").toList ∧
        resp.tokensUsed = 0 ∧ resp.ragChunksUsed = 0) := by
  have hch := sue_check_characterisation
    { failedAttempts := ctx.failedAttempts
      severity := some ctx.severity
      customerRequested := false } rfl
  constructor
  · intro hs
    simp only [processL1Request, sue_redact_id, sue_no_human_request]
    rw [if_neg]
    rintro ⟨-, hcrit⟩
    exact hs (by simpa [hs] using hch.2.mp hcrit)
  · intro hs
    simp only [processL1Request, sue_redact_id, sue_no_human_request]
    rw [if_pos ⟨hch.1, hch.2.mpr (by simp [hs])⟩]
    exact ⟨_, rfl, rfl, rfl, rfl, rfl⟩

def ctxC2crit : L1AgentContext :=
  { failedAttempts := none, severity := ("critical").toList }

theorem processL1Request_sue_short_circuit_iff_witness :
    ctxC2crit.severity = ("critical").toList ∧
    (∃ resp, processL1Request ctxC2crit sueMsg = L1Flow.earlyEscalation resp ∧
      resp.shouldEscalate = true ∧ resp.escalationLevel = ("L3").toList ∧
      resp.tokensUsed = 0 ∧ resp.ragChunksUsed = 0) :=
  ⟨rfl, (processL1Request_sue_short_circuit_iff ctxC2crit).2 rfl⟩

def ctxC2low : L1AgentContext :=
  { failedAttempts := none, severity := ("low").toList }

/-- C2 (counterexample): with an ordinary (low-severity, no failed
attempts) context, the message "I'm going to sue you" does NOT
short-circuit the tier-1 turn: the escalation check yields severity
`medium` (not `critical`), so `processL1Request` continues into the RAG
retrieval and the LLM call instead of returning immediately with `L3`. -/
theorem processL1Request_sue_no_short_circuit_cex :
    processL1Request ctxC2low sueMsg = L1Flow.fullTurn ∧
    (checkEscalationTriggers sueMsg (some
      { failedAttempts := none
        severity := some (("low").toList)
        customerRequested := false })).shouldEscalate = true ∧
    (checkEscalationTriggers sueMsg (some
      { failedAttempts := none
        severity := some (("low").toList)
        customerRequested := false })).severity = Severity.medium := by
  refine ⟨by decide, by decide, by decide⟩

end ClaimsL1

section ClaimsEmbeddingsOrder

theorem getD_range_map (l : List α) (d : α) :
    (List.range l.length).map (fun j => l.getD j d) = l := by
  induction l with
  | nil => rfl
  | cons x xs ih =>
    rw [List.length_cons, List.range_succ_eq_map]
    simp only [List.map_cons, List.map_map]
    have h0 : (x :: xs).getD 0 d = x := by simp
    have hc : ((fun j => (x :: xs).getD j d) ∘ Nat.succ) = (fun j => xs.getD j d) :=
      funext (fun j => by simp)
    rw [h0, hc, ih]


theorem orderedInsert_cons_of_le (le : α → α → Bool) (x y : α) (ys : List α)
    (h : le x y = true) : orderedInsert le x (y :: ys) = x :: y :: ys := by
  simp [orderedInsert, h]

theorem insertionSort_of_pairwise (le : α → α → Bool) (l : List α)
    (h : l.Pairwise (fun a b => le a b = true)) : insertionSort le l = l := by
  induction l with
  | nil => rfl
  | cons x xs ih =>
    have hx := List.pairwise_cons.mp h
    have hxs : insertionSort le xs = xs := ih hx.2
    show orderedInsert le x (insertionSort le xs) = x :: xs
    rw [hxs]
    cases xs with
    | nil => rfl
    | cons y ys => exact orderedInsert_cons_of_le le x y ys (hx.1 y (by simp))

theorem pairwise_of_map_range' (g : α → Nat) :
    ∀ (l : List α) (s n : Nat), l.map g = List.range' s n →
      l.Pairwise (fun a b => decide (g a ≤ g b) = true) := by
  intro l
  induction l with
  | nil => intro s n _; exact List.Pairwise.nil
  | cons x xs ih =>
    intro s n h
    cases n with
    | zero => simp at h
    | succ n' =>
      rw [List.range'_succ] at h
      simp only [List.map_cons, List.cons.injEq] at h
      refine List.Pairwise.cons ?_ (ih (s + 1) n' h.2)
      intro b hb
      have hgb : g b ∈ List.range' (s + 1) n' := by
        rw [← h.2]
        exact List.mem_map_of_mem g hb
      have := List.mem_range'.mp hgb
      obtain ⟨i, _, hgi⟩ := this
      simp only [decide_eq_true_eq, h.1]
      omega

theorem generateEmbeddingsGo_spec (provider : List Str → List (List ℚ))
    (hp : ∀ b, (provider b).length = b.length) :
    ∀ (n : Nat) (ts : List Str) (i : Nat), ts.length ≤ n →
      (generateEmbeddingsGo provider ts i).map (fun r => r.index) =
        List.range' i ts.length ∧
      (generateEmbeddingsGo provider ts i).map (fun r => r.text) = ts := by
  intro n
  induction n with
  | zero =>
    intro ts i h
    have : ts = [] := List.length_eq_zero.mp (Nat.le_zero.mp h)
    subst this
    simp [generateEmbeddingsGo]
  | succ n ih =>
    intro ts i h
    cases ts with
    | nil => simp [generateEmbeddingsGo]
    | cons t rest =>
      rw [generateEmbeddingsGo]
      have hresp := hp ((t :: rest).take MAX_BATCH_SIZE)
      have hdroplen : ((t :: rest).drop MAX_BATCH_SIZE).length ≤ n := by
        simp only [List.length_drop, List.length_cons] at *
        simp only [MAX_BATCH_SIZE] at *
        omega
      have hrec := ih ((t :: rest).drop MAX_BATCH_SIZE) (i + MAX_BATCH_SIZE) hdroplen
      have htake : ((t :: rest).take MAX_BATCH_SIZE).length =
          min MAX_BATCH_SIZE (t :: rest).length := List.length_take _ _
      constructor
      · simp only [List.map_append, List.map_map]
        rw [hrec.1]
        have hmap : ((List.range (provider ((t :: rest).take MAX_BATCH_SIZE)).length).map
            ((fun r : EmbeddingResult => r.index) ∘ (fun j =>
              ({ text := ((t :: rest).take MAX_BATCH_SIZE).getD j []
                 embedding := (provider ((t :: rest).take MAX_BATCH_SIZE)).getD j []
                 index := i + j } : EmbeddingResult)))) =
            (List.range (provider ((t :: rest).take MAX_BATCH_SIZE)).length).map
              (fun j => i + j) := by
          apply List.map_congr_left
          intro j _
          rfl
        rw [hmap, hresp, htake]
        have hr' : (List.range (min MAX_BATCH_SIZE (t :: rest).length)).map (fun j => i + j) =
            List.range' i (min MAX_BATCH_SIZE (t :: rest).length) := by
          rw [List.range'_eq_map_range]
        rw [hr']
        rw [List.length_drop]
        have hre := List.range'_append i (min MAX_BATCH_SIZE (t :: rest).length)
          ((t :: rest).length - MAX_BATCH_SIZE) 1
        rcases Nat.le_total (t :: rest).length MAX_BATCH_SIZE with hle | hle
        · have h1 : min MAX_BATCH_SIZE (t :: rest).length = (t :: rest).length := by omega
          have h2 : (t :: rest).length - MAX_BATCH_SIZE = 0 := by omega
          rw [h1, h2]
          simp
        · have h1 : min MAX_BATCH_SIZE (t :: rest).length = MAX_BATCH_SIZE := by omega
          rw [h1] at hre ⊢
          simp only [Nat.one_mul] at hre
          rw [hre]
          congr 1
          omega
      · simp only [List.map_append, List.map_map]
        rw [hrec.2]
        have hmap : ((List.range (provider ((t :: rest).take MAX_BATCH_SIZE)).length).map
            ((fun r : EmbeddingResult => r.text) ∘ (fun j =>
              ({ text := ((t :: rest).take MAX_BATCH_SIZE).getD j []
                 embedding := (provider ((t :: rest).take MAX_BATCH_SIZE)).getD j []
                 index := i + j } : EmbeddingResult)))) =
            (List.range (provider ((t :: rest).take MAX_BATCH_SIZE)).length).map
              (fun j => ((t :: rest).take MAX_BATCH_SIZE).getD j []) := by
          apply List.map_congr_left
          intro j _
          rfl
        rw [hmap, hresp, getD_range_map ((t :: rest).take MAX_BATCH_SIZE) []]
        exact List.take_append_drop _ _

end ClaimsEmbeddingsOrder

/-- C9: assuming the provider returns one embedding per input of each
batch, `generateEmbeddings` returns exactly one result per input text,
with result `i` carrying index `i` and text `texts[i]`, in ascending
original-input order — despite the internal batching into groups of at
most `MAX_BATCH_SIZE = 100`. -/
theorem generateEmbeddings_preserves_order (provider : List Str → List (List ℚ))
    (texts : List Str) (hp : ∀ b, (provider b).length = b.length) :
    (generateEmbeddings provider texts).length = texts.length ∧
    (generateEmbeddings provider texts).map (fun r => r.index) =
      List.range texts.length ∧
    (generateEmbeddings provider texts).map (fun r => r.text) = texts := by
  have hspec := generateEmbeddingsGo_spec provider hp texts.length texts 0 le_rfl
  have hpw := pairwise_of_map_range' (fun r => r.index)
    (generateEmbeddingsGo provider texts 0) 0 texts.length hspec.1
  have hid := insertionSort_of_pairwise
    (fun a b : EmbeddingResult => decide (a.index ≤ b.index))
    (generateEmbeddingsGo provider texts 0) hpw
  unfold generateEmbeddings
  rw [hid]
  refine ⟨?_, by rw [hspec.1, List.range_eq_range'], hspec.2⟩
  have := congrArg List.length hspec.2
  simpa using this

def providerW : List Str → List (List ℚ) := fun b => b.map (fun _ => [])

def textsW : List Str := List.replicate 250 (("a").toList)

theorem generateEmbeddings_preserves_order_witness :
    (∀ b, (providerW b).length = b.length) ∧
    (generateEmbeddings providerW textsW).length = 250 ∧
    (generateEmbeddings providerW textsW).map (fun r => r.index) = List.range 250 :=
  ⟨fun b => by simp [providerW],
   by
     have h := generateEmbeddings_preserves_order providerW textsW
       (fun b => by simp [providerW])
     exact h.1.trans (by simp [textsW]),
   by
     have h := generateEmbeddings_preserves_order providerW textsW
       (fun b => by simp [providerW])
     have hl : textsW.length = 250 := by simp [textsW]
     rw [h.2.1, hl]⟩

section ClaimsAssembleContext

theorem estimateTokens_append (a b : Str) :
    estimateTokens (a ++ b) ≤ estimateTokens a + estimateTokens b := by
  simp only [estimateTokens, List.length_append]
  omega

theorem length_le_four_est (a : Str) : a.length ≤ 4 * estimateTokens a := by
  simp only [estimateTokens]
  omega

theorem jsTrim_length_le (s : Str) : (jsTrim s).length ≤ s.length := by
  unfold jsTrim
  calc ((s.dropWhile isJsWs).reverse.dropWhile isJsWs).reverse.length
      = ((s.dropWhile isJsWs).reverse.dropWhile isJsWs).length := List.length_reverse _
    _ ≤ (s.dropWhile isJsWs).reverse.length := length_dropWhile_le _ _
    _ = (s.dropWhile isJsWs).length := List.length_reverse _
    _ ≤ s.length := length_dropWhile_le _ _

theorem estimateTokens_jsTrim_le (s : Str) :
    estimateTokens (jsTrim s) ≤ estimateTokens s := by
  have := jsTrim_length_le s
  simp only [estimateTokens]
  omega

theorem length_orderedInsert (le : α → α → Bool) (x : α) (l : List α) :
    (orderedInsert le x l).length = l.length + 1 := by
  induction l with
  | nil => rfl
  | cons y ys ih =>
    unfold orderedInsert
    split
    · simp
    · simp [ih]

theorem length_insertionSort (le : α → α → Bool) (l : List α) :
    (insertionSort le l).length = l.length := by
  induction l with
  | nil => rfl
  | cons x xs ih =>
    show (orderedInsert le x (insertionSort le xs)).length = xs.length + 1
    rw [length_orderedInsert, ih]

theorem assembleLoop_length_le (maxT : Nat) (rest : List RetrievalResult) :
    ∀ (ctx : Str) (total k : Nat),
      total ≤ maxT → ctx.length ≤ 5 * k + 4 * total →
      (assembleLoop maxT rest ctx total).length ≤ 5 * (k + rest.length) + 3 + 4 * maxT := by
  induction rest with
  | nil =>
    intro ctx total k h1 h2
    simp only [assembleLoop, List.length_nil]
    omega
  | cons c cs ih =>
    intro ctx total k h1 h2
    rw [assembleLoop]
    split
    · rename_i hover
      simp only []
      split
      · rename_i hkeep
        simp only [List.length_append, List.length_cons]
        have hc : (("\n---\n").toList).length = 5 := by decide
        have hd : (("...").toList).length = 3 := by decide
        have hf : (List.take ((maxT - total) * 4) c.content).length ≤ (maxT - total) * 4 := by
          rw [List.length_take]
          exact Nat.min_le_left _ _
        omega
      · simp only [List.length_cons]
        omega
    · rename_i hnotover
      have hct : c.content.length ≤ 4 * estimateTokens c.content :=
        length_le_four_est c.content
      have hover' : total + estimateTokens c.content ≤ maxT := by omega
      have harg : (ctx ++ ("\n---\n").toList ++ c.content).length ≤
          5 * (k + 1) + 4 * (total + estimateTokens c.content) := by
        simp only [List.length_append]
        have hc : (("\n---\n").toList).length = 5 := by decide
        rw [hc]
        omega
      have := ih (ctx ++ ("\n---\n").toList ++ c.content)
        (total + estimateTokens c.content) (k + 1) hover' harg
      calc (assembleLoop maxT cs (ctx ++ ("\n---\n").toList ++ c.content)
              (total + estimateTokens c.content)).length
          ≤ 5 * (k + 1 + cs.length) + 3 + 4 * maxT := this
        _ = 5 * (k + (c :: cs).length) + 3 + 4 * maxT := by
            simp only [List.length_cons]
            ring

/-- C5 (amended): the running token total that `assembleContext` checks
against the budget counts only the chunk contents, so the returned
string — which additionally carries a five-character `\n---\n` delimiter
per included chunk and a possible `...` marker — can estimate above
`maxTokens`, but only by the delimiter overhead: its token estimate is
at most `maxTokens + 2 · (number of chunks) + 2`. -/
theorem assembleContext_budget_with_overhead (chunks : List RetrievalResult)
    (maxTokens : Nat) :
    estimateTokens (assembleContext chunks maxTokens) ≤
      maxTokens + 2 * chunks.length + 2 := by
  unfold assembleContext
  split
  · simp [estimateTokens]
  · have hlen := assembleLoop_length_le maxTokens (insertionSort scoreDescLe chunks)
      [] 0 0 (Nat.zero_le _) (by simp)
    have hsort := length_insertionSort scoreDescLe chunks
    rw [hsort] at hlen
    have htrim := jsTrim_length_le
      (assembleLoop maxTokens (insertionSort scoreDescLe chunks) [] 0)
    simp only [estimateTokens]
    omega

def rmC5 : RetrievalResultMetadata :=
  { kbId := [], docId := [], product := [], chunkIndex := 0, language := ("en").toList }

def rrC5 : RetrievalResult :=
  { content := List.replicate 8 'x', score := 1, metadata := rmC5 }

/-- C5 (counterexample): one chunk of 8 characters (2 estimated tokens)
against a budget of 2 passes the check, but the emitted `\n---\n`
delimiter pushes the output to 12 characters after trimming — an
estimate of 3, exceeding the requested budget of 2. -/
theorem assembleContext_budget_cex :
    estimateTokens (assembleContext [rrC5] 2) = 3 ∧
    ¬ (estimateTokens (assembleContext [rrC5] 2) ≤ 2) := by
  constructor
  · decide
  · decide

end ClaimsAssembleContext

section ClaimsRedaction

theorem redactOne_snd_len (text : Str) (p : RE × Str) (acc : Str × List RedactionRecord)
    (m : Nat × Nat) : ((redactOne text p acc m).2).length = acc.2.length + 1 := by
  simp [redactOne]

theorem foldl_redactOne_snd_len (text : Str) (p : RE × Str) :
    ∀ (ms : List (Nat × Nat)) (acc : Str × List RedactionRecord),
      ((ms.foldl (redactOne text p) acc).2).length = acc.2.length + ms.length := by
  intro ms
  induction ms with
  | nil => intro acc; rfl
  | cons m ms ih =>
    intro acc
    rw [List.foldl_cons, ih, redactOne_snd_len]
    simp only [List.length_cons]
    omega

theorem redactStep_snd_len (text : Str) (acc : Str × List RedactionRecord)
    (p : RE × Str) :
    ((redactStep text acc p).2).length = acc.2.length + (reExecAll p.1 text).length :=
  foldl_redactOne_snd_len text p (reExecAll p.1 text) acc

theorem redactStep_fst_of_no_match (text : Str) (acc : Str × List RedactionRecord)
    (p : RE × Str) (h : reExecAll p.1 text = []) :
    redactStep text acc p = acc := by
  unfold redactStep
  rw [h]
  rfl

theorem foldl_redactStep_clean (text : Str) :
    ∀ (ps : List (RE × Str)) (acc : Str × List RedactionRecord),
      (ps.foldl (redactStep text) acc).2 = [] →
      (ps.foldl (redactStep text) acc).1 = acc.1 ∧ acc.2 = [] := by
  intro ps
  induction ps with
  | nil => intro acc h; exact ⟨rfl, h⟩
  | cons p ps ih =>
    intro acc h
    rw [List.foldl_cons] at h ⊢
    obtain ⟨h1, h2⟩ := ih (redactStep text acc p) h
    have hlen := redactStep_snd_len text acc p
    rw [h2] at hlen
    simp only [List.length_nil] at hlen
    have hm : reExecAll p.1 text = [] := by
      apply List.length_eq_zero.mp
      omega
    have ha : acc.2 = [] := by
      apply List.length_eq_zero.mp
      omega
    refine ⟨h1.trans ?_, ha⟩
    rw [redactStep_fst_of_no_match text acc p hm]

/-- When no sensitive pattern matches, `redactSecrets` leaves the text
unchanged. -/
theorem redactSecrets_clean_fixes (x : Str)
    (h : (redactSecrets x).hasSecrets = false) :
    (redactSecrets x).text = x := by
  have h' : ((SENSITIVE_PATTERNS.foldl (redactStep x) (x, [])).2).length = 0 := by
    unfold redactSecrets at h
    simp only [decide_eq_false_iff_not, gt_iff_lt, Nat.not_lt, Nat.le_zero] at h
    exact h
  show (SENSITIVE_PATTERNS.foldl (redactStep x) (x, [])).1 = x
  exact (foldl_redactStep_clean x SENSITIVE_PATTERNS (x, [])
    (List.length_eq_zero.mp h')).1

/-- C8 (amended): redaction is idempotent on inputs in which it finds no
secrets — for such `x`, `redactSecrets` returns `x` itself, so a second
application returns the same text.  (On inputs that do contain secrets a
second pass can find fresh matches in the redacted text; see the
counterexample.) -/
theorem redactSecrets_idempotent_on_clean (x : Str)
    (h : (redactSecrets x).hasSecrets = false) :
    (redactSecrets (redactSecrets x).text).text = (redactSecrets x).text := by
  rw [redactSecrets_clean_fixes x h]
  exact redactSecrets_clean_fixes x h

theorem redactSecrets_idempotent_on_clean_witness :
    (redactSecrets (("hello").toList)).hasSecrets = false ∧
    (redactSecrets (redactSecrets (("hello").toList)).text).text =
      (redactSecrets (("hello").toList)).text :=
  ⟨by decide, redactSecrets_idempotent_on_clean (("hello").toList) (by decide)⟩

def cexC8 : Str := ("password: sk-aaaaaaaaaaaaaaaaaaaaaaaaaaaaaaaa").toList

/-- C8 (counterexample): on `"password: sk-"` followed by 32 `a`s, the
first pass redacts the OpenAI-key match inside the password value,
producing `"password: [REDACTED OpenAI API Key]"`; the password pattern's
own replacement was a no-op because its matched text had already been
rewritten.  A second pass then matches `password: [REDACTED` (the
placeholder is a valid `[^\s'"]{8,}` password value) and redacts again,
so `redact(redact(x)).text ≠ redact(x).text`. -/
theorem redactSecrets_not_idempotent_cex :
    (redactSecrets (redactSecrets cexC8).text).text ≠ (redactSecrets cexC8).text := by
  decide

end ClaimsRedaction

section ClaimsChunker

/-- Largest single-sentence token estimate over the paragraphs of one
section — the quantity that bounds how far an oversized sentence can
push a chunk. -/
def paraSentMax (sec : Str) : Nat :=
  ((splitIntoParagraphs sec).map
    (fun p => ((splitIntoSentences p).map estimateTokens).foldr max 0)).foldr max 0

/-- The sections `chunkText` actually chunks: the header-delimited
sections when the cleaned text has markdown headers, else the whole
cleaned text. -/
def chunkSectionsOf (cleanText : Str) : List Str :=
  if hasHeaders cleanText then sectionsOf cleanText else [cleanText]

/-- Largest single-sentence token estimate over the whole document. -/
def docSentMax (cleanText : Str) : Nat :=
  ((chunkSectionsOf cleanText).map paraSentMax).foldr max 0

theorem le_foldr_max (l : List Nat) (x : Nat) (h : x ∈ l) : x ≤ l.foldr max 0 := by
  induction l with
  | nil => cases h
  | cons y ys ih =>
    rcases List.mem_cons.mp h with rfl | h'
    · exact Nat.le_max_left _ _
    · exact le_trans (ih h') (Nat.le_max_right _ _)

theorem foldl_invariant_mem {α β : Type _} (f : β → α → β) (P : β → Prop)
    (l : List α) (init : β) (h0 : P init)
    (hstep : ∀ acc x, x ∈ l → P acc → P (f acc x)) : P (l.foldl f init) := by
  induction l generalizing init with
  | nil => exact h0
  | cons x xs ih =>
    rw [List.foldl_cons]
    exact ih (f init x) (hstep init x (by simp) h0)
      (fun acc y hy => hstep acc y (by simp [hy]))

theorem est_append_sep2 (a b : Str) :
    estimateTokens (a ++ ('\n' :: '\n' :: b)) ≤
      estimateTokens a + estimateTokens b + 1 := by
  simp only [estimateTokens, List.length_append, List.length_cons]
  omega

theorem est_append_sep1 (a b : Str) :
    estimateTokens (a ++ (' ' :: b)) ≤ estimateTokens a + estimateTokens b + 1 := by
  simp only [estimateTokens, List.length_append, List.length_cons]
  omega

theorem overlapPick_nil_or_le (sentences : List Str) (targetChars : Nat) :
    overlapPick sentences targetChars = [] ∨
      (overlapPick sentences targetChars).length ≤ targetChars := by
  unfold overlapPick
  apply foldl_invariant_mem _ (fun ov => ov = [] ∨ ov.length ≤ targetChars)
  · exact Or.inl rfl
  · intro acc x _ hacc
    simp only []
    split
    · rename_i hfit
      exact Or.inr hfit
    · exact hacc

theorem getOverlapText_length_le (text : Str) (ovl : Nat) (h : 1 ≤ ovl) :
    (getOverlapText text ovl).length ≤ ovl * 4 := by
  unfold getOverlapText
  simp only []
  split
  · rename_i hle
    exact hle
  · rename_i hgt
    have hslice : (jsSliceNeg text (ovl * 4)).length ≤ ovl * 4 := by
      unfold jsSliceNeg
      rw [if_neg (by omega)]
      rw [List.length_drop]
      omega
    split
    · split
      · rename_i hpicked
        rcases overlapPick_nil_or_le
            (splitIntoSentences (jsSliceNeg text (ovl * 4 * 2))) (ovl * 4) with hz | hle
        · exact absurd hz hpicked
        · exact hle
      · exact hslice
    · exact hslice

/-- Head of a `dropWhile` fails the predicate. -/
theorem dropWhile_head_not (p : α → Bool) :
    ∀ (l : List α) (c : α) (rest : List α), l.dropWhile p = c :: rest → p c = false := by
  intro l
  induction l with
  | nil => intro c rest h; cases h
  | cons a as ih =>
    intro c rest h
    rw [List.dropWhile_cons] at h
    split at h
    · exact ih c rest h
    · rename_i hpa
      cases h
      exact Bool.not_eq_true _ |>.mp hpa

/-- "contains a non-whitespace character" — what survives `trim`. -/
def hasNonWs (s : Str) : Prop := ∃ c ∈ s, isJsWs c = false

theorem all_ws_of_jsTrim_eq_nil (s : Str) (h : jsTrim s = []) :
    ∀ c ∈ s, isJsWs c = true := by
  unfold jsTrim at h
  have h1 : (s.dropWhile isJsWs).reverse.dropWhile isJsWs = [] := by
    have := congrArg List.reverse h
    simpa using this
  have h2 : ∀ c ∈ (s.dropWhile isJsWs).reverse, isJsWs c = true :=
    List.dropWhile_eq_nil_iff.mp h1
  intro c hc
  have hsplit : c ∈ s.takeWhile isJsWs ++ s.dropWhile isJsWs := by
    rw [List.takeWhile_append_dropWhile]
    exact hc
  rcases List.mem_append.mp hsplit with h3 | h3
  · exact List.mem_takeWhile_imp h3
  · exact h2 c (List.mem_reverse.mpr h3)

theorem jsTrim_ne_nil_of_hasNonWs (s : Str) (h : hasNonWs s) : jsTrim s ≠ [] := by
  intro hnil
  obtain ⟨c, hc, hws⟩ := h
  rw [all_ws_of_jsTrim_eq_nil s hnil c hc] at hws
  cases hws

theorem mem_jsTrim_subset (s : Str) (c : Char) (h : c ∈ jsTrim s) : c ∈ s := by
  unfold jsTrim at h
  have h1 := List.mem_reverse.mp h
  have h2 := (List.dropWhile_sublist isJsWs).mem h1
  have h3 := List.mem_reverse.mp h2
  exact (List.dropWhile_sublist isJsWs).mem h3

theorem hasNonWs_of_jsTrim_ne_nil (s : Str) (h : jsTrim s ≠ []) : hasNonWs (jsTrim s) := by
  unfold jsTrim at h ⊢
  rcases hdw : (s.dropWhile isJsWs).reverse.dropWhile isJsWs with _ | ⟨c, rest⟩
  · rw [hdw] at h
    simp at h
  · refine ⟨c, ?_, dropWhile_head_not isJsWs _ c rest hdw⟩
    simp

theorem hasNonWs_of_mem (s : Str) (c : Char) (hc : c ∈ s) (hw : isJsWs c = false) :
    hasNonWs s := ⟨c, hc, hw⟩

/-- Every sentence produced by `splitIntoSentences` is a non-blank
trimmed string. -/
theorem splitIntoSentences_hasNonWs (t : Str) :
    ∀ s ∈ splitIntoSentences t, hasNonWs s := by
  unfold splitIntoSentences
  have hfold : ∀ s ∈ ((sentenceParts t).foldl
      (fun (acc : List Str × Str) part =>
        if part.2 then
          let current := acc.2 ++ part.1
          if jsTrim current ≠ [] then (acc.1 ++ [jsTrim current], []) else (acc.1, [])
        else (acc.1, acc.2 ++ part.1)) ([], [])).1, hasNonWs s := by
    apply foldl_invariant_mem _
      (fun acc : List Str × Str => ∀ s ∈ acc.1, hasNonWs s)
    · intro s hs
      cases hs
    · intro acc part _ hacc
      split
      · simp only []
        split
        · rename_i hne
          intro s hs
          rcases List.mem_append.mp hs with h1 | h1
          · exact hacc s h1
          · rw [List.mem_singleton.mp h1]
            exact hasNonWs_of_jsTrim_ne_nil _ hne
        · exact hacc
      · exact hacc
  simp only []
  split
  · rename_i hne
    intro s hs
    rcases List.mem_append.mp hs with h1 | h1
    · exact hfold s h1
    · rw [List.mem_singleton.mp h1]
      exact hasNonWs_of_jsTrim_ne_nil _ hne
  · exact hfold

end ClaimsChunker

section ChunkerInvariants

/-- Invariant of the chunk buffers (`currentChunk` / `sentenceChunk`):
the buffer is empty or survives trimming, and its token estimate stays
below the bound `B`. -/
def BufOk (B : Nat) (buf : Str) : Prop :=
  (buf = [] ∨ jsTrim buf ≠ []) ∧ estimateTokens buf ≤ B

/-- Invariant of the emitted chunks: recorded token estimate and content
estimate bounded by `B`. -/
def ChunksOk (B : Nat) (cs : List ChunkPiece) : Prop :=
  ∀ c ∈ cs, c.tokenEstimate ≤ B ∧ estimateTokens c.content ≤ B

theorem ChunksOk_append_one (B : Nat) (cs : List ChunkPiece) (c : ChunkPiece)
    (h : ChunksOk B cs) (h1 : c.tokenEstimate ≤ B)
    (h2 : estimateTokens c.content ≤ B) : ChunksOk B (cs ++ [c]) := by
  intro d hd
  rcases List.mem_append.mp hd with h' | h'
  · exact h d h'
  · rw [List.mem_singleton.mp h']
    exact ⟨h1, h2⟩

theorem est_seed_sentence (buf sentence : Str) (ovl M : Nat)
    (hov : (getOverlapText buf ovl).length ≤ ovl * 4)
    (hs : estimateTokens sentence ≤ M) :
    estimateTokens (getOverlapText buf ovl ++ (' ' :: sentence)) ≤ ovl + M + 1 := by
  have hlen := length_le_four_est sentence
  simp only [estimateTokens, List.length_append, List.length_cons] at *
  omega

theorem est_append_space_le (buf sentence : Str) (maxT : Nat)
    (h : estimateTokens buf + estimateTokens sentence ≤ maxT) :
    estimateTokens (buf ++ [' '] ++ sentence) ≤ maxT + 1 := by
  have h1 := length_le_four_est buf
  have h2 := length_le_four_est sentence
  simp only [estimateTokens, List.length_append, List.length_cons, List.length_nil] at *
  omega

theorem sentenceLoop_invariant (maxT ovl B M : Nat)
    (hov : 1 ≤ ovl) (hB1 : maxT + 1 ≤ B) (hB2 : ovl + M + 1 ≤ B) :
    ∀ (sentences : List Str) (st : LoopState),
      (∀ s ∈ sentences, estimateTokens s ≤ M ∧ hasNonWs s) →
      BufOk B st.buf → ChunksOk B st.chunks →
      BufOk B (sentenceLoop maxT ovl sentences st).buf ∧
      ChunksOk B (sentenceLoop maxT ovl sentences st).chunks := by
  intro sentences
  induction sentences with
  | nil =>
    intro st _ hb hc
    exact ⟨hb, hc⟩
  | cons sentence rest ih =>
    intro st hs hb hc
    obtain ⟨hsM, hsNW⟩ := hs sentence (by simp)
    have hrest : ∀ s ∈ rest, estimateTokens s ≤ M ∧ hasNonWs s :=
      fun s h => hs s (by simp [h])
    rw [sentenceLoop]
    simp only []
    split
    · rename_i hcond
      apply ih _ hrest
      · constructor
        · right
          apply jsTrim_ne_nil_of_hasNonWs
          obtain ⟨cch, hcch, hcw⟩ := hsNW
          exact ⟨cch, by simp [hcch], hcw⟩
        · have hovlen := getOverlapText_length_le st.buf ovl hov
          calc estimateTokens (getOverlapText st.buf ovl ++ (' ' :: sentence))
              ≤ ovl + M + 1 := est_seed_sentence st.buf sentence ovl M hovlen hsM
            _ ≤ B := hB2
      · apply ChunksOk_append_one _ _ _ hc
        · exact hb.2
        · exact le_trans (estimateTokens_jsTrim_le st.buf) hb.2
    · rename_i hcond
      by_cases hbe : st.buf = []
      · apply ih _ hrest
        · constructor
          · right
            apply jsTrim_ne_nil_of_hasNonWs
            obtain ⟨cch, hcch, hcw⟩ := hsNW
            refine ⟨cch, ?_, hcw⟩
            simp [hbe, hcch]
          · have : estimateTokens (st.buf ++ (if st.buf = [] then [] else [' ']) ++ sentence)
                = estimateTokens sentence := by
              simp [hbe]
            rw [this]
            calc estimateTokens sentence ≤ M := hsM
              _ ≤ B := by omega
        · exact hc
      · have htr : jsTrim st.buf ≠ [] := by
          rcases hb.1 with h | h
          · exact absurd h hbe
          · exact h
        have hover : estimateTokens st.buf + estimateTokens sentence ≤ maxT := by
          by_contra hgt
          exact hcond ⟨by omega, htr⟩
        apply ih _ hrest
        · constructor
          · right
            apply jsTrim_ne_nil_of_hasNonWs
            obtain ⟨cch, hcch, hcw⟩ := hsNW
            refine ⟨cch, ?_, hcw⟩
            simp [hcch]
          · have heq : st.buf ++ (if st.buf = [] then [] else [' ']) ++ sentence
                = st.buf ++ [' '] ++ sentence := by
              simp [hbe]
            rw [heq]
            calc estimateTokens (st.buf ++ [' '] ++ sentence)
                ≤ maxT + 1 := est_append_space_le st.buf sentence maxT hover
              _ ≤ B := hB1
        · exact hc

end ChunkerInvariants

section ChunkerInvariants2

theorem est_seed_para (buf p : Str) (ovl maxT : Nat)
    (hov : (getOverlapText buf ovl).length ≤ ovl * 4)
    (hp : estimateTokens p ≤ maxT) :
    estimateTokens (getOverlapText buf ovl ++ ('\n' :: '\n' :: p)) ≤ ovl + maxT + 1 := by
  have hlen := length_le_four_est p
  simp only [estimateTokens, List.length_append, List.length_cons] at *
  omega

theorem est_append_para_le (buf p : Str) (maxT : Nat)
    (h : estimateTokens buf + estimateTokens p ≤ maxT) :
    estimateTokens (buf ++ ['\n', '\n'] ++ p) ≤ maxT + 1 := by
  have h1 := length_le_four_est buf
  have h2 := length_le_four_est p
  simp only [estimateTokens, List.length_append, List.length_cons, List.length_nil] at *
  omega

theorem paragraphLoop_invariant (maxT minT ovl B M : Nat)
    (hov : 1 ≤ ovl) (hB1 : maxT + 1 ≤ B) (hB2 : ovl + M + 1 ≤ B)
    (hB3 : ovl + maxT + 1 ≤ B) :
    ∀ (paragraphs : List Str) (st : LoopState),
      (∀ p ∈ paragraphs, hasNonWs p ∧
        (∀ s ∈ splitIntoSentences p, estimateTokens s ≤ M ∧ hasNonWs s)) →
      BufOk B st.buf → ChunksOk B st.chunks →
      BufOk B (paragraphLoop maxT minT ovl paragraphs st).buf ∧
      ChunksOk B (paragraphLoop maxT minT ovl paragraphs st).chunks := by
  intro paragraphs
  induction paragraphs with
  | nil =>
    intro st _ hb hc
    exact ⟨hb, hc⟩
  | cons paragraph rest ih =>
    intro st hp hb hc
    obtain ⟨hpNW, hpSent⟩ := hp paragraph (by simp)
    have hrest : ∀ p ∈ rest, hasNonWs p ∧
        (∀ s ∈ splitIntoSentences p, estimateTokens s ≤ M ∧ hasNonWs s) :=
      fun p h => hp p (by simp [h])
    rw [paragraphLoop]
    simp only []
    split
    · -- paragraphTokens > maxTokens: flush, then sentence split
      rename_i hbig
      split
      · -- current chunk flushed
        rename_i htr
        have hc1 : ChunksOk B (st.chunks ++
            [{ content := jsTrim st.buf
               startChar := st.bufStart
               endChar := st.offset
               tokenEstimate := estimateTokens st.buf }]) := by
          apply ChunksOk_append_one _ _ _ hc
          · exact hb.2
          · exact le_trans (estimateTokens_jsTrim_le st.buf) hb.2
        have hr := sentenceLoop_invariant maxT ovl B M hov hB1 hB2
          (splitIntoSentences paragraph)
          { chunks := st.chunks ++
              [{ content := jsTrim st.buf
                 startChar := st.bufStart
                 endChar := st.offset
                 tokenEstimate := estimateTokens st.buf }]
            buf := []
            bufStart := st.offset
            offset := st.offset }
          hpSent ⟨Or.inl rfl, by simp [estimateTokens]⟩ hc1
        split
        · exact ih _ hrest hr.1 hr.2
        · exact ih _ hrest ⟨Or.inl rfl, by simp [estimateTokens]⟩ hr.2
      · -- nothing to flush: buffer was empty
        rename_i htr
        have hr := sentenceLoop_invariant maxT ovl B M hov hB1 hB2
          (splitIntoSentences paragraph)
          { chunks := st.chunks, buf := [], bufStart := st.offset, offset := st.offset }
          hpSent ⟨Or.inl rfl, by simp [estimateTokens]⟩ hc
        split
        · exact ih _ hrest hr.1 hr.2
        · exact ih _ hrest ⟨hb.1, hb.2⟩ hr.2
    · rename_i hbig
      have hpMax : estimateTokens paragraph ≤ maxT := by omega
      split
      · -- currentTokens + paragraphTokens > maxTokens: flush and seed with overlap
        rename_i hover
        have hseed : BufOk B (getOverlapText st.buf ovl ++ ('\n' :: '\n' :: paragraph)) := by
          constructor
          · right
            apply jsTrim_ne_nil_of_hasNonWs
            obtain ⟨cch, hcch, hcw⟩ := hpNW
            exact ⟨cch, by simp [hcch], hcw⟩
          · calc estimateTokens (getOverlapText st.buf ovl ++ ('\n' :: '\n' :: paragraph))
                ≤ ovl + maxT + 1 :=
                  est_seed_para st.buf paragraph ovl maxT
                    (getOverlapText_length_le st.buf ovl hov) hpMax
              _ ≤ B := hB3
        split
        · rename_i htr
          apply ih _ hrest hseed
          apply ChunksOk_append_one _ _ _ hc
          · exact hb.2
          · exact le_trans (estimateTokens_jsTrim_le st.buf) hb.2
        · exact ih _ hrest hseed hc
      · -- append paragraph to the current chunk
        rename_i hover
        have hsum : estimateTokens st.buf + estimateTokens paragraph ≤ maxT := by omega
        by_cases hbe : st.buf = []
        · have hbuf : BufOk B
              (st.buf ++ (if st.buf = [] then [] else ['\n', '\n']) ++ paragraph) := by
            constructor
            · right
              apply jsTrim_ne_nil_of_hasNonWs
              obtain ⟨cch, hcch, hcw⟩ := hpNW
              refine ⟨cch, ?_, hcw⟩
              simp [hbe, hcch]
            · have heq : estimateTokens
                  (st.buf ++ (if st.buf = [] then [] else ['\n', '\n']) ++ paragraph)
                  = estimateTokens paragraph := by
                simp [hbe]
              rw [heq]
              omega
          exact ih _ hrest hbuf hc
        · have hbuf : BufOk B
              (st.buf ++ (if st.buf = [] then [] else ['\n', '\n']) ++ paragraph) := by
            constructor
            · right
              apply jsTrim_ne_nil_of_hasNonWs
              obtain ⟨cch, hcch, hcw⟩ := hpNW
              refine ⟨cch, ?_, hcw⟩
              simp [hcch]
            · have heq : st.buf ++ (if st.buf = [] then [] else ['\n', '\n']) ++ paragraph
                  = st.buf ++ ['\n', '\n'] ++ paragraph := by
                simp [hbe]
              rw [heq]
              calc estimateTokens (st.buf ++ ['\n', '\n'] ++ paragraph)
                  ≤ maxT + 1 := est_append_para_le st.buf paragraph maxT hsum
                _ ≤ B := hB1
          exact ih _ hrest hbuf hc

end ChunkerInvariants2

section ChunkerSectionBound

theorem hasNonWs_of_trim_ne (s : Str) (h : jsTrim s ≠ []) : hasNonWs s := by
  obtain ⟨c, hc, hw⟩ := hasNonWs_of_jsTrim_ne_nil s h
  exact ⟨c, mem_jsTrim_subset s c hc, hw⟩

theorem splitIntoParagraphs_hasNonWs (t : Str) :
    ∀ p ∈ splitIntoParagraphs t, hasNonWs p := by
  intro p hp
  unfold splitIntoParagraphs at hp
  have := List.of_mem_filter hp
  simp only [ne_eq, decide_not, Bool.not_eq_true', decide_eq_false_iff_not] at this
  exact hasNonWs_of_trim_ne p this

theorem sentence_est_le_paraSentMax (sec p s : Str)
    (hp : p ∈ splitIntoParagraphs sec) (hs : s ∈ splitIntoSentences p) :
    estimateTokens s ≤ paraSentMax sec := by
  have h1 : estimateTokens s ≤ ((splitIntoSentences p).map estimateTokens).foldr max 0 :=
    le_foldr_max _ _ (List.mem_map_of_mem estimateTokens hs)
  have h2 : ((splitIntoSentences p).map estimateTokens).foldr max 0 ≤ paraSentMax sec :=
    le_foldr_max _ _ (List.mem_map_of_mem _ hp)
  omega

theorem chunkSection_tokenEstimate_le (sec : Str) (maxT minT ovl : Nat)
    (hov : 1 ≤ ovl) :
    ∀ c ∈ chunkSection sec maxT minT ovl,
      c.tokenEstimate ≤ maxT + ovl + paraSentMax sec + 1 + minT := by
  intro c hcmem
  have hpar : ∀ p ∈ splitIntoParagraphs sec, hasNonWs p ∧
      (∀ s ∈ splitIntoSentences p,
        estimateTokens s ≤ paraSentMax sec ∧ hasNonWs s) := by
    intro p hp
    refine ⟨splitIntoParagraphs_hasNonWs sec p hp, fun s hs => ?_⟩
    exact ⟨sentence_est_le_paraSentMax sec p s hp hs, splitIntoSentences_hasNonWs p s hs⟩
  have hloop := paragraphLoop_invariant maxT minT ovl
    (maxT + ovl + paraSentMax sec + 1) (paraSentMax sec) hov (by omega) (by omega)
    (by omega) (splitIntoParagraphs sec)
    { chunks := [], buf := [], bufStart := 0, offset := 0 }
    hpar ⟨Or.inl rfl, by simp [estimateTokens]⟩ (fun c h => by cases h)
  revert hcmem
  unfold chunkSection
  simp only []
  split
  · -- final chunk big enough: plain push
    rename_i hcond
    intro hcmem
    rcases List.mem_append.mp hcmem with h1 | h1
    · have := hloop.2 c h1
      omega
    · rw [List.mem_singleton.mp h1]
      have := hloop.1.2
      simp only []
      omega
  · split
    · -- small final chunk merged into the previous one
      rename_i hcond1 hcond2
      split
      · rename_i last hlast
        intro hcmem
        rcases List.mem_append.mp hcmem with h1 | h1
        · have := hloop.2 c (List.dropLast_subset _ h1)
          omega
        · rw [List.mem_singleton.mp h1]
          simp only []
          have hlastmem := hloop.2 last (List.mem_of_mem_getLast? hlast)
          have hsmall : estimateTokens
              (paragraphLoop maxT minT ovl (splitIntoParagraphs sec)
                { chunks := [], buf := [], bufStart := 0, offset := 0 }).buf < minT := by
            rcases Decidable.not_and_iff_or_not.mp hcond1 with h | h
            · exact absurd hcond2.1 h
            · omega
          have htrimle := estimateTokens_jsTrim_le
            (paragraphLoop maxT minT ovl (splitIntoParagraphs sec)
              { chunks := [], buf := [], bufStart := 0, offset := 0 }).buf
          have hmerge := est_append_sep2 last.content
            (jsTrim (paragraphLoop maxT minT ovl (splitIntoParagraphs sec)
              { chunks := [], buf := [], bufStart := 0, offset := 0 }).buf)
          omega
      · intro hcmem
        have := hloop.2 c hcmem
        omega
    · split
      · -- only chunk, pushed even though small
        rename_i hcond1 hcond2 hcond3
        intro hcmem
        rcases List.mem_append.mp hcmem with h1 | h1
        · have := hloop.2 c h1
          omega
        · rw [List.mem_singleton.mp h1]
          simp only []
          have := hloop.1.2
          omega
      · intro hcmem
        have := hloop.2 c hcmem
        omega

end ChunkerSectionBound

section ChunkerTopBound

theorem paraSentMax_le_docSentMax (cleanText sec : Str)
    (h : sec ∈ chunkSectionsOf cleanText) :
    paraSentMax sec ≤ docSentMax cleanText :=
  le_foldr_max _ _ (List.mem_map_of_mem _ h)

/-- C6 (amended): every chunk produced by `chunkText` has
`tokenEstimate ≤ maxTokens + overlapTokens + S + 1 + minTokens`, where
`S` is the largest token estimate of a single sentence of the (cleaned,
sectioned) input.  The plain `tokenEstimate ≤ maxTokens` bound of the
claim fails because (a) a new buffer is seeded with an overlap tail on
top of a full paragraph, (b) an oversized sentence enters a chunk
whole, and (c) a final chunk below `minTokens` is merged into its
neighbour; the bound above accounts for exactly these three overshoots.
(`overlapTokens ≥ 1` is required: with `overlapTokens = 0` the source's
`text.slice(-0)` returns the whole text, so the "overlap" can be
arbitrarily long.) -/
theorem chunkText_tokenEstimate_bounded (text : Str) (options : ChunkOptions)
    (hov : 1 ≤ options.overlapTokens.getD 50) :
    ∀ c ∈ chunkText text options,
      c.tokenEstimate ≤ options.maxTokens.getD 500 + options.overlapTokens.getD 50 +
        docSentMax (cleanTextOf text) + 1 + options.minTokens.getD 100 := by
  intro c hcmem
  revert hcmem
  unfold chunkText
  simp only []
  split
  · intro h
    cases h
  · split
    · -- header-delimited sections
      rename_i hne hhdr
      apply foldl_invariant_mem _
        (fun acc : List TextChunk × Nat => ∀ c ∈ acc.1,
          c.tokenEstimate ≤ options.maxTokens.getD 500 + options.overlapTokens.getD 50 +
            docSentMax (cleanTextOf text) + 1 + options.minTokens.getD 100)
      · intro c h
        cases h
      · intro acc sec hsec hP c hc
        rcases List.mem_append.mp hc with h1 | h1
        · exact hP c h1
        · obtain ⟨jc, hjc, rfl⟩ := List.mem_map.mp h1
          obtain ⟨i, piece⟩ := jc
          have hmem2 : piece ∈ chunkSection sec (options.maxTokens.getD 500)
              (options.minTokens.getD 100) (options.overlapTokens.getD 50) := by
            have hin := List.mem_enum hjc
            rw [hin.2]
            exact List.getElem_mem hin.1
          have hbd := chunkSection_tokenEstimate_le sec (options.maxTokens.getD 500)
            (options.minTokens.getD 100) (options.overlapTokens.getD 50) hov piece hmem2
          have hms : paraSentMax sec ≤ docSentMax (cleanTextOf text) := by
            apply paraSentMax_le_docSentMax
            unfold chunkSectionsOf
            rw [if_pos hhdr]
            exact hsec
          simp only []
          omega
    · -- single section: the whole cleaned text
      rename_i hne hhdr
      intro hcmem
      obtain ⟨jc, hjc, rfl⟩ := List.mem_map.mp hcmem
      obtain ⟨i, piece⟩ := jc
      have hmem2 : piece ∈ chunkSection (cleanTextOf text) (options.maxTokens.getD 500)
          (options.minTokens.getD 100) (options.overlapTokens.getD 50) := by
        have hin := List.mem_enum hjc
        rw [hin.2]
        exact List.getElem_mem hin.1
      have hbd := chunkSection_tokenEstimate_le (cleanTextOf text)
        (options.maxTokens.getD 500) (options.minTokens.getD 100)
        (options.overlapTokens.getD 50) hov piece hmem2
      have hms : paraSentMax (cleanTextOf text) ≤ docSentMax (cleanTextOf text) := by
        apply paraSentMax_le_docSentMax
        unfold chunkSectionsOf
        rw [if_neg hhdr]
        simp
      simp only []
      omega

def optsW6 : ChunkOptions :=
  { maxTokens := some 10, minTokens := some 1, overlapTokens := some 5 }

def textW6 : Str := ("Hello world. This is fine.").toList

theorem chunkText_tokenEstimate_bounded_witness :
    1 ≤ optsW6.overlapTokens.getD 50 ∧
    ∀ c ∈ chunkText textW6 optsW6,
      c.tokenEstimate ≤ optsW6.maxTokens.getD 500 + optsW6.overlapTokens.getD 50 +
        docSentMax (cleanTextOf textW6) + 1 + optsW6.minTokens.getD 100 :=
  ⟨by decide, chunkText_tokenEstimate_bounded textW6 optsW6 (by decide)⟩

def cexC6 : Str :=
  List.replicate 40 'a' ++ ('\n' :: '\n' :: List.replicate 36 'b') ++
    ('\n' :: '\n' :: ("cccc").toList)

def optsC6 : ChunkOptions :=
  { maxTokens := some 10, minTokens := some 1, overlapTokens := some 5 }

/-- C6 (counterexample): on three paragraphs of 40 `a`s, 36 `b`s and
`cccc` with `maxTokens = 10`, the middle chunk is seeded with a
20-character overlap tail of the first paragraph and then receives the
36-character second paragraph: its `tokenEstimate` is 15 > 10, and it is
not a single oversized sentence — it splits into two sentences, each of
which alone estimates within `maxTokens`. -/
theorem chunkText_tokenEstimate_cex :
    ∃ c ∈ chunkText cexC6 optsC6,
      optsC6.maxTokens.getD 500 < c.tokenEstimate ∧
      1 < (splitIntoSentences c.content).length ∧
      ∀ s ∈ splitIntoSentences c.content,
        estimateTokens s ≤ optsC6.maxTokens.getD 500 := by
  decide

end ChunkerTopBound
